import Mathlib

/-!
Verification of the bracket engine of the `bracket` tournament manager.

The definitions below are a shallow embedding of the TypeScript source
(`src/App.tsx` tournament-service section and `src/services/db.ts`).
JavaScript arrays become `List`, nullable values become `Option`,
numbers holding scores, rounds and counts become `Nat` (the UI restricts
score inputs to non-negative integers and target scores to positive
integers), and in-place mutation of the `matches` array becomes explicit
state passing: every helper that mutates `tournament.matches` in the
source is embedded as a function returning the updated list.

External effects are passed in as parameters:
  * `uuidv4()` is modelled by an injected id supply `uuid : Nat → Nat → String`
    (one fresh string per round/position creation step);
  * `Math.random`-driven shuffling is modelled by an injected
    `shuffle : List Participant → List Participant` oracle;
  * `Date.now()` is modelled by an explicit `now : Nat` argument.
`Math.ceil(Math.log2 n)` on integer participant counts is modelled
exactly by `ceilLog2` (floating point is exact at tournament scales),
and `Array.prototype.sort` (stable in modern engines) by the stable
insertion sort `sortBy`; `String.prototype.localeCompare` ordering is
modelled by the default `String` order.
-/

/-- A tournament participant (source: `types/bracket.ts` `Participant`). -/
structure Participant where
  id : String
  name : String
  gamePoints : Nat
deriving DecidableEq, Repr

/-- A bracket match (source: `types/bracket.ts` `Match`, plus the
`wildCardParticipant1/2` optional flags used by `App.tsx`; an absent
(undefined) flag is modelled as `false`). -/
structure BMatch where
  id : String
  round : Nat
  position : Nat
  participant1 : Option Participant
  participant2 : Option Participant
  participant1Score : Nat
  participant2Score : Nat
  winner : Option Participant
  wildCardParticipant1 : Bool
  wildCardParticipant2 : Bool
deriving DecidableEq, Repr

/-- Scoring modes (source: `types/bracket.ts` `ScoringMode`). -/
inductive ScoringMode where
  | higher_score
  | lower_score
  | best_of
deriving DecidableEq, Repr

/-- Seeding modes (source: `App.tsx`, `'random' | 'seeded'`). -/
inductive SeedingMode where
  | random
  | seeded
deriving DecidableEq, Repr

/-- The tournament aggregate (source: `types/bracket.ts` `Tournament`
together with the `seedingMode`, `isStarted` and `finalizedRounds`
fields used by `App.tsx` and `db.ts`; a legacy record's absent
`finalizedRounds` is modelled as `[]`). -/
structure Tournament where
  id : String
  name : String
  game : String
  scoringMode : ScoringMode
  scoreLabel : String
  targetScore : Option Nat
  seedingMode : SeedingMode
  isStarted : Bool
  participants : List Participant
  «matches» : List BMatch
  currentRound : Nat
  totalRounds : Nat
  finalizedRounds : List Nat
  createdAt : Nat
  updatedAt : Nat
deriving DecidableEq, Repr

/-! ### Exact model of `Math.ceil(Math.log2 n)` -/

/-- Fuel-driven search for the least exponent `k` with `n ≤ acc * 1` where
`acc` runs through `2 ^ k`; structural recursion so the kernel can
evaluate it. -/
def ceilLog2Go : Nat → Nat → Nat → Nat → Nat
  | 0, _, _, k => k
  | fuel + 1, n, acc, k => if n ≤ acc then k else ceilLog2Go fuel n (acc * 2) (k + 1)

/-- `ceilLog2 n` is the least `k` with `n ≤ 2 ^ k`, which equals
`Math.ceil(Math.log2 n)` for every integer `n ≥ 1`. -/
def ceilLog2 (n : Nat) : Nat := ceilLog2Go n n 1 0

theorem ceilLog2Go_eq (K : Nat) :
    ∀ (fuel k n : Nat), n ≤ 2 ^ K → (∀ j, n ≤ 2 ^ j → K ≤ j) →
      k ≤ K → K ≤ k + fuel → ceilLog2Go fuel n (2 ^ k) k = K := by
  intro fuel
  induction fuel with
  | zero =>
    intro k n _ _ hk hK
    simp only [ceilLog2Go]
    omega
  | succ m ih =>
    intro k n hle hmin hk hK
    simp only [ceilLog2Go]
    by_cases h : n ≤ 2 ^ k
    · have := hmin k h
      simp [h]
      omega
    · have hkK : k + 1 ≤ K := by
        rcases Nat.lt_or_ge k K with h1 | h1
        · omega
        · have : K = k := by omega
          subst this
          exact absurd hle h
      have : (2 : Nat) ^ k * 2 = 2 ^ (k + 1) := by ring
      simp only [h, if_false, this]
      exact ih (k + 1) n hle hmin hkK (by omega)

theorem ceilLog2_le_pow (n : Nat) : n ≤ 2 ^ ceilLog2 n := by
  have hex : n ≤ 2 ^ n := Nat.le_of_lt (Nat.lt_two_pow n)
  have hK := Nat.find_spec (p := fun k => n ≤ 2 ^ k) ⟨n, hex⟩
  have hmin : ∀ j, n ≤ 2 ^ j → Nat.find (p := fun k => n ≤ 2 ^ k) ⟨n, hex⟩ ≤ j :=
    fun j hj => Nat.find_min' _ hj
  have hKn : Nat.find (p := fun k => n ≤ 2 ^ k) ⟨n, hex⟩ ≤ n := hmin n hex
  have heq : ceilLog2 n = Nat.find (p := fun k => n ≤ 2 ^ k) ⟨n, hex⟩ := by
    have := ceilLog2Go_eq (Nat.find (p := fun k => n ≤ 2 ^ k) ⟨n, hex⟩) n 0 n hK hmin
      (Nat.zero_le _) (by omega)
    simpa [ceilLog2] using this
  rw [heq]
  exact hK

theorem ceilLog2_min {n j : Nat} (h : n ≤ 2 ^ j) : ceilLog2 n ≤ j := by
  have hex : n ≤ 2 ^ n := Nat.le_of_lt (Nat.lt_two_pow n)
  have hK := Nat.find_spec (p := fun k => n ≤ 2 ^ k) ⟨n, hex⟩
  have hmin : ∀ i, n ≤ 2 ^ i → Nat.find (p := fun k => n ≤ 2 ^ k) ⟨n, hex⟩ ≤ i :=
    fun i hi => Nat.find_min' _ hi
  have heq : ceilLog2 n = Nat.find (p := fun k => n ≤ 2 ^ k) ⟨n, hex⟩ := by
    have := ceilLog2Go_eq (Nat.find (p := fun k => n ≤ 2 ^ k) ⟨n, hex⟩) n 0 n hK hmin
      (Nat.zero_le _) (by simpa using hmin n hex)
    simpa [ceilLog2] using this
  rw [heq]
  exact hmin j h

theorem pow_pred_ceilLog2_lt {n : Nat} (h : 2 ≤ n) : 2 ^ (ceilLog2 n - 1) < n := by
  by_contra hcon
  push_neg at hcon
  have h1 : ceilLog2 n ≤ ceilLog2 n - 1 := ceilLog2_min hcon
  have h2 : 1 ≤ ceilLog2 n := by
    by_contra h0
    push_neg at h0
    interval_cases h : ceilLog2 n
    have := ceilLog2_le_pow n
    rw [h] at this
    omega
  omega

/-! ### Stable sort modelling `Array.prototype.sort` -/

/-- Stable insertion of `x` into a sorted list: `x` goes before the first
element `y` with `le x y`; equal elements keep the earlier-inserted one
in front, matching the stability of `Array.prototype.sort`. -/
def insertSorted (le : α → α → Bool) (x : α) : List α → List α
  | [] => [x]
  | y :: ys => if le x y then x :: y :: ys else y :: insertSorted le x ys

/-- Stable sort by a boolean "comes before or ties" comparator, modelling
`Array.prototype.sort` with a JS comparator. -/
def sortBy (le : α → α → Bool) : List α → List α
  | [] => []
  | x :: xs => insertSorted le x (sortBy le xs)

theorem insertSorted_perm (le : α → α → Bool) (x : α) (l : List α) :
    List.Perm (insertSorted le x l) (x :: l) := by
  induction l with
  | nil => simp [insertSorted]
  | cons y ys ih =>
    simp only [insertSorted]
    by_cases h : le x y
    · simp [h]
    · simp only [h, if_false]
      exact (List.Perm.cons y ih).trans (List.Perm.swap x y ys)

theorem sortBy_perm (le : α → α → Bool) (l : List α) :
    List.Perm (sortBy le l) l := by
  induction l with
  | nil => simp [sortBy]
  | cons x xs ih =>
    exact (insertSorted_perm le x (sortBy le xs)).trans (List.Perm.cons x ih)

theorem insertSorted_pairwise (le : α → α → Bool)
    (htrans : ∀ a b c, le a b = true → le b c = true → le a c = true)
    (htot : ∀ a b, le a b || le b a) (x : α) (l : List α)
    (hl : List.Pairwise (fun a b => le a b = true) l) :
    List.Pairwise (fun a b => le a b = true) (insertSorted le x l) := by
  induction l with
  | nil => simp [insertSorted]
  | cons y ys ih =>
    simp only [insertSorted]
    rcases List.pairwise_cons.1 hl with ⟨hy, hys⟩
    by_cases h : le x y
    · simp only [h, if_true]
      refine List.pairwise_cons.2 ⟨?_, hl⟩
      intro b hb
      rcases List.mem_cons.1 hb with rfl | hb
      · exact h
      · exact htrans x y b h (hy b hb)
    · simp only [h, if_false]
      refine List.pairwise_cons.2 ⟨?_, ih hys⟩
      intro b hb
      have hperm := insertSorted_perm le x ys
      have hb' : b ∈ x :: ys := hperm.mem_iff.1 hb
      rcases List.mem_cons.1 hb' with rfl | hb'
      · have := htot b y
        simp [h] at this
        exact this
      · exact hy b hb'

theorem sortBy_pairwise (le : α → α → Bool)
    (htrans : ∀ a b c, le a b = true → le b c = true → le a c = true)
    (htot : ∀ a b, le a b || le b a) (l : List α) :
    List.Pairwise (fun a b => le a b = true) (sortBy le l) := by
  induction l with
  | nil => simp [sortBy]
  | cons x xs ih => exact insertSorted_pairwise le htrans htot x (sortBy le xs) ih

/-! ### Bracket Builder (source: `generateMatchStructure` in `App.tsx`) -/

/-- Source: `generateMatchStructure(participantCount)`. The `uuid`
parameter injects the `uuidv4()` draw made when the match for a given
round/position is created. -/
def generateMatchStructure (uuid : Nat → Nat → String) (participantCount : Nat) :
    List BMatch :=
  if participantCount < 2 then []
  else
    let rounds := ceilLog2 participantCount
    (List.range' 1 rounds).flatMap (fun round =>
      (List.range' 1 (2 ^ (rounds - round))).map (fun position =>
        { id := uuid round position
          round := round
          position := position
          participant1 := none
          participant2 := none
          participant1Score := 0
          participant2Score := 0
          winner := none
          wildCardParticipant1 := false
          wildCardParticipant2 := false }))

/-! ### Seeder (source: `assignParticipantsToMatches` and helpers) -/

/-- The comparator of `getSeededParticipants`: gamePoints descending,
ties by name ascending (`localeCompare`). -/
def seededBefore (a b : Participant) : Bool :=
  if a.gamePoints ≠ b.gamePoints then b.gamePoints < a.gamePoints
  else a.name ≤ b.name

/-- Source: `getSeededParticipants(participants)` — a stable sort of a
copy of the list by `seededBefore`. -/
def getSeededParticipants (participants : List Participant) : List Participant :=
  sortBy seededBefore participants

/-- Fuel-driven body of `generateBracketSeedPositions`; the source
recursion halves `bracketSize` each call, so `bracketSize` itself is
enough fuel, and a structural fuel parameter keeps the definition
kernel-evaluable. The source only ever calls it with powers of two
`≥ 2` (other inputs would not terminate in the source). -/
def bracketSeedPositionsGo : Nat → Nat → List Nat
  | 0, _ => [0, 1]
  | fuel + 1, bracketSize =>
    if bracketSize ≤ 2 then [0, 1]
    else
      let halfSize := bracketSize / 2
      (bracketSeedPositionsGo fuel halfSize).flatMap
        (fun s => [s, bracketSize - 1 - s])

/-- Source: `generateBracketSeedPositions(bracketSize)` — base case size
2 gives `[0, 1]`; otherwise interleave each upper-half seed with its
complement `bracketSize - 1 - s`. -/
def generateBracketSeedPositions (bracketSize : Nat) : List Nat :=
  bracketSeedPositionsGo bracketSize bracketSize

/-- Source: `assignSeededParticipants(matches, seededParticipants,
byeCount)` — slot `j` of match `i` (0-indexed) receives the participant
ranked `seedPositions[2 i + j]` when that seed index is in range,
otherwise the slot is left as it was (empty for freshly generated
matches). `byeCount` is unused in the source body as well. -/
def assignSeededParticipants (ms : List BMatch)
    (seededParticipants : List Participant) (byeCount : Nat) : List BMatch :=
  let bracketSize := ms.length * 2
  let seedPositions := generateBracketSeedPositions bracketSize
  let _ := byeCount
  ms.mapIdx (fun i m =>
    { m with
        participant1 :=
          ((seedPositions[2 * i]?).bind (fun s => seededParticipants[s]?)).or
            m.participant1
        participant2 :=
          ((seedPositions[2 * i + 1]?).bind (fun s => seededParticipants[s]?)).or
            m.participant2 })

/-- Source: `assignParticipantsToMatches(tournament)`. The `shuffle`
oracle stands for `shuffleArray` (Fisher–Yates over `Math.random`); the
sequential branch fills round-1 matches slot1 then slot2 from the
ordered list, which consumes exactly participants `2 i` and `2 i + 1`
for match `i`. -/
def assignParticipantsToMatches (uuid : Nat → Nat → String)
    (shuffle : List Participant → List Participant) (tournament : Tournament) :
    Tournament :=
  let participantCount := tournament.participants.length
  if participantCount < 2 then
    { tournament with «matches» := [], totalRounds := 0, currentRound := 1 }
  else
    let totalRounds := ceilLog2 participantCount
    let ms := generateMatchStructure uuid participantCount
    let firstRoundMatches := ms.filter (fun m => m.round == 1)
    let orderedParticipants :=
      if tournament.seedingMode = SeedingMode.seeded then
        getSeededParticipants tournament.participants
      else shuffle tournament.participants
    let bracketSize := 2 ^ totalRounds
    let byeCount := bracketSize - participantCount
    let assignedFirst :=
      if tournament.seedingMode = SeedingMode.seeded ∧ 0 < byeCount then
        assignSeededParticipants firstRoundMatches orderedParticipants byeCount
      else
        firstRoundMatches.mapIdx (fun i m =>
          { m with
              participant1 := (orderedParticipants[2 * i]?).or m.participant1
              participant2 := (orderedParticipants[2 * i + 1]?).or m.participant2 })
    { tournament with
        «matches» := assignedFirst ++ ms.filter (fun m => !(m.round == 1))
        totalRounds := totalRounds
        currentRound := 1 }

/-! ### Match Resolver (source: `determineWinner`) -/

/-- Source: `determineWinner(tournament, match, participant1Score,
participant2Score)`. A missing `targetScore` and a zero `targetScore`
are both falsy in the source's `if (!targetScore)`. -/
def determineWinner (tournament : Tournament) (m : BMatch)
    (participant1Score participant2Score : Nat) : Option Participant :=
  match m.participant1, m.participant2 with
  | some _, some _ =>
    (match tournament.scoringMode with
     | .higher_score =>
       if participant1Score = participant2Score then none
       else if participant2Score < participant1Score then m.participant1
       else m.participant2
     | .lower_score =>
       if participant1Score = participant2Score then none
       else if participant1Score = 0 ∧ participant2Score = 0 then none
       else if participant1Score = 0 then m.participant2
       else if participant2Score = 0 then m.participant1
       else if participant1Score < participant2Score then m.participant1
       else m.participant2
     | .best_of =>
       if tournament.targetScore.getD 0 = 0 then
         if participant1Score = participant2Score then none
         else if participant2Score < participant1Score then m.participant1
         else m.participant2
       else if tournament.targetScore.getD 0 ≤ participant1Score then m.participant1
       else if tournament.targetScore.getD 0 ≤ participant2Score then m.participant2
       else none)
  | _, _ => none

/-! ### Round Finalizer (source: `finalizeRoundIfComplete` and helpers) -/

/-- The source's inline bye test: exactly one slot occupied. -/
def isSingleOccupant (m : BMatch) : Bool :=
  (m.participant1.isSome && !m.participant2.isSome) ||
    (!m.participant1.isSome && m.participant2.isSome)

/-- Replaces the first element satisfying `p`; models mutating the
single match found by `filter(round).find(position)` in source order. -/
def updateFirst (p : α → Bool) (f : α → α) : List α → List α
  | [] => []
  | x :: xs => if p x then f x :: xs else x :: updateFirst p f xs

/-- Source: `advanceWinnerToNextRound(matches, match, totalRounds)`;
`Math.ceil(position / 2)` is `(position + 1) / 2` on naturals. -/
def advanceWinnerToNextRound (ms : List BMatch) (m : BMatch) (totalRounds : Nat) :
    List BMatch :=
  if m.winner = none ∨ totalRounds ≤ m.round then ms
  else
    let nextMatchPosition := (m.position + 1) / 2
    updateFirst
      (fun nm => nm.round == m.round + 1 && nm.position == nextMatchPosition)
      (fun nm =>
        if m.position % 2 = 1 then { nm with participant1 := m.winner }
        else { nm with participant2 := m.winner })
      ms

/-- Source: `processRoundByes(matches, round, totalRounds)` — walks the
round's matches (iteration by index: each step mutates only the visited
match and next-round matches, so the source's snapshot of filtered
references reads the same values). -/
def processRoundByes (ms : List BMatch) (round totalRounds : Nat) : List BMatch :=
  (List.range ms.length).foldl
    (fun acc i =>
      match acc[i]? with
      | none => acc
      | some m =>
        if m.round == round && !m.winner.isSome && isSingleOccupant m then
          let m' := { m with
            winner := if m.participant1.isSome then m.participant1
                      else m.participant2 }
          advanceWinnerToNextRound (acc.set i m') m' totalRounds
        else acc)
    ms

/-- Source: `isRoundComplete(matches, round)`. -/
def isRoundComplete (ms : List BMatch) (round : Nat) : Bool :=
  let roundMatches := ms.filter (fun m => m.round == round)
  let playedMatches :=
    roundMatches.filter (fun m => m.participant1.isSome && m.participant2.isSome)
  if playedMatches.isEmpty then
    roundMatches.any (fun m => m.participant1.isSome || m.participant2.isSome)
  else
    playedMatches.all (fun m => m.winner.isSome)

/-- Source: `hasNextRoundScores(matches, round)`. -/
def hasNextRoundScores (ms : List BMatch) (round : Nat) : Bool :=
  let nextRound := round + 1
  (ms.filter (fun m => m.round == nextRound)).any
    (fun m => m.winner.isSome || decide (0 < m.participant1Score) ||
      decide (0 < m.participant2Score))

/-- Source: `canFinalizeRound(tournament, round)`. -/
def canFinalizeRound (tournament : Tournament) (round : Nat) : Bool :=
  if tournament.totalRounds < round then false
  else if !isRoundComplete tournament.«matches» round then false
  else if decide (round < tournament.totalRounds) &&
      hasNextRoundScores tournament.«matches» round then false
  else true

/-- Source: `updateCurrentRound(tournament, round)`. -/
def updateCurrentRound (tournament : Tournament) (round : Nat) : Tournament :=
  let roundMatches := tournament.«matches».filter (fun m => m.round == round)
  let activeMatches :=
    roundMatches.filter (fun m => m.participant1.isSome || m.participant2.isSome)
  let allComplete :=
    !activeMatches.isEmpty && activeMatches.all (fun m => m.winner.isSome)
  if allComplete && tournament.currentRound == round &&
      decide (round < tournament.totalRounds) then
    { tournament with currentRound := tournament.currentRound + 1 }
  else tournament

/-- Source: `clearWildCardsForRound(matches, round)`. -/
def clearWildCardsForRound (ms : List BMatch) (round : Nat) : List BMatch :=
  ms.map (fun m =>
    if m.round == round && !m.winner.isSome then
      let m1 :=
        if m.wildCardParticipant1 then
          { m with participant1 := none, wildCardParticipant1 := false }
        else m
      if m1.wildCardParticipant2 then
        { m1 with participant2 := none, wildCardParticipant2 := false }
      else m1
    else m)

/-- Source: `clearNextRoundAssignments(matches, round)`. -/
def clearNextRoundAssignments (ms : List BMatch) (round : Nat) : List BMatch :=
  ms.map (fun m =>
    if m.round == round then
      { m with
          participant1 := none
          participant2 := none
          participant1Score := 0
          participant2Score := 0
          winner := none
          wildCardParticipant1 := false
          wildCardParticipant2 := false }
    else m)

/-- List-level body of `advanceRoundWinners(tournament, round)`: the loop
iterates the snapshot of the round's matches; its mutations only ever
touch round `round + 1`, so snapshot and live reads agree. -/
def advanceRoundWinnersMatches (ms : List BMatch) (round totalRounds : Nat) :
    List BMatch :=
  (ms.filter (fun m => m.round == round)).foldl
    (fun acc m =>
      if m.winner.isSome && m.participant1.isSome && m.participant2.isSome then
        advanceWinnerToNextRound acc m totalRounds
      else acc)
    ms

/-- Source: `advanceRoundWinners(tournament, round)`. -/
def advanceRoundWinners (tournament : Tournament) (round : Nat) : Tournament :=
  { tournament with
      «matches» :=
        advanceRoundWinnersMatches tournament.«matches» round
          tournament.totalRounds }

/-- Source: the `RoundLoser` record type. -/
structure RoundLoser where
  participant : Participant
  score : Nat
  matchId : String
deriving DecidableEq, Repr

/-- The comparator of `getRoundLosers`' sort: score descending (in every
scoring mode), ties by participant name ascending. -/
def loserBefore (a b : RoundLoser) : Bool :=
  if a.score ≠ b.score then b.score < a.score
  else a.participant.name ≤ b.participant.name

/-- Source: `getRoundLosers(matches, round)` — losers of the round's
two-occupant decided matches, sorted by `loserBefore`. -/
def getRoundLosers (ms : List BMatch) (round : Nat) : List RoundLoser :=
  sortBy loserBefore
    (ms.filterMap (fun m =>
      match m.participant1, m.participant2, m.winner with
      | some p1, some p2, some w =>
        if m.round = round then
          some
            (if w.id = p1.id then
              { participant := p2, score := m.participant2Score, matchId := m.id }
            else
              { participant := p1, score := m.participant1Score, matchId := m.id })
        else none
      | _, _, _ => none))

/-- The wild-card placement of one candidate into the empty slot of a
single-occupant match (the two branches of the source's fill loop). -/
def fillSlot (m : BMatch) (cand : RoundLoser) : BMatch :=
  if m.participant1.isSome && !m.participant2.isSome then
    { m with participant2 := some cand.participant, wildCardParticipant2 := true }
  else if !m.participant1.isSome && m.participant2.isSome then
    { m with participant1 := some cand.participant, wildCardParticipant1 := true }
  else m

/-- The inner loop of `fillByeMatchesWithWildCards` for one round: walk
the matches, fill each single-occupant winnerless match of `nextRound`
with the first loser not yet in `usedLosers`. Each step mutates only the
visited match, so walking the whole list and skipping other rounds is
the source's walk of the filtered reference list. When no candidate is
left the source does `break`; since `usedLosers` only grows, every later
iteration would also find none, so continuing is equivalent. -/
def fillLoop (losers : List RoundLoser) (nextRound : Nat) :
    List BMatch → List String → List BMatch × List String × Bool
  | [], used => ([], used, false)
  | m :: ms, used =>
    if m.round == nextRound && !m.winner.isSome && isSingleOccupant m then
      match losers.find? (fun l => !used.contains l.participant.id) with
      | none =>
        let r := fillLoop losers nextRound ms used
        (m :: r.1, r.2.1, r.2.2)
      | some cand =>
        let r := fillLoop losers nextRound ms (used ++ [cand.participant.id])
        (fillSlot m cand :: r.1, r.2.1, true)
    else
      let r := fillLoop losers nextRound ms used
      (m :: r.1, r.2.1, r.2.2)

/-- One iteration of the outer loop of `fillByeMatchesWithWildCards`
(the body for a single `currentRound`). -/
def fillRoundOnce (ms : List BMatch) (currentRound : Nat) : List BMatch × Bool :=
  let roundMatches := ms.filter (fun m => m.round == currentRound)
  let activeMatches :=
    roundMatches.filter (fun m => m.participant1.isSome || m.participant2.isSome)
  if activeMatches.isEmpty then (ms, false)
  else if !isRoundComplete ms currentRound then (ms, false)
  else
    let losers := getRoundLosers ms currentRound
    let r := fillLoop losers (currentRound + 1) ms []
    (r.1, r.2.2)

/-- Source: `fillByeMatchesWithWildCards(tournament, round?)`; with a
`round` argument the loop runs exactly once for that round. -/
def fillByeMatchesWithWildCards (tournament : Tournament) (round : Option Nat) :
    Tournament × Bool :=
  let startRound := round.getD 1
  let endRound := round.getD (tournament.totalRounds - 1)
  let result :=
    (List.range' startRound (endRound + 1 - startRound)).foldl
      (fun acc r =>
        let s := fillRoundOnce acc.1 r
        (s.1, acc.2 || s.2))
      (tournament.«matches», false)
  ({ tournament with «matches» := result.1 }, result.2)

/-- Source: `finalizeRoundIfComplete(tournament, round)` — returns the
updated tournament together with the boolean result. -/
def finalizeRoundIfComplete (tournament : Tournament) (round : Nat) :
    Tournament × Bool :=
  if !canFinalizeRound tournament round then (tournament, false)
  else
    let nextRound := round + 1
    let t1 :=
      if round < tournament.totalRounds then
        let ms1 := clearNextRoundAssignments tournament.«matches» nextRound
        let t2 := advanceRoundWinners { tournament with «matches» := ms1 } round
        let ms3 := processRoundByes t2.«matches» round tournament.totalRounds
        let ms4 := clearWildCardsForRound ms3 nextRound
        let t5 := (fillByeMatchesWithWildCards { t2 with «matches» := ms4 }
          (some round)).1
        updateCurrentRound t5 round
      else tournament
    let t6 :=
      if round ∈ t1.finalizedRounds then t1
      else { t1 with finalizedRounds := t1.finalizedRounds ++ [round] }
    (t6, true)

/-! ### Reset (source: `db.resetTournament` in `services/db.ts`) -/

/-- The pure record transformation of `db.resetTournament` (the
surrounding store lookup and PUT are the external persistence layer);
`Date.now()` is the `now` argument. -/
def resetTournamentRecord (tournament : Tournament) (now : Nat) : Tournament :=
  let resetParticipants :=
    tournament.participants.map (fun p => { p with gamePoints := 0 })
  { tournament with
      participants := resetParticipants
      isStarted := false
      «matches» := []
      currentRound := 1
      totalRounds := 0
      finalizedRounds := []
      updatedAt := now }

/-! ### Import and merge (sources: `importTournaments` in `App.tsx` and
`db.importTournaments` in `services/db.ts`) -/

/-- A parsed JSON value; `JSON.parse` failure is modelled as `none` at
the use site. -/
inductive Json where
  | null
  | bool (b : Bool)
  | num (n : Int)
  | str (s : String)
  | arr (elems : List Json)
  | obj (fields : List (String × Json))
deriving Repr

/-- JavaScript truthiness of a property-access result (`none` is
`undefined`). -/
def Json.truthy : Option Json → Bool
  | none => false
  | some .null => false
  | some (.bool b) => b
  | some (.num n) => !(n == 0)
  | some (.str s) => !(s == "")
  | some (.arr _) => true
  | some (.obj _) => true

/-- JavaScript property access `j[key]` for the keys the import
validation reads (`undefined` on non-objects; access on `null` throws in
JS, and that exception is caught and rethrown by the same wrapper that
rejects falsy fields, so both paths are the validation failure below). -/
def Json.getField (j : Json) (key : String) : Option Json :=
  match j with
  | .obj fields => (fields.find? (fun f => f.1 == key)).map (fun f => f.2)
  | _ => none

/-- The per-record check of `importTournaments`:
`!t.id || !t.name || !t.game` raises. -/
def validTournamentRecord (t : Json) : Bool :=
  Json.truthy (t.getField "id") && Json.truthy (t.getField "name") &&
    Json.truthy (t.getField "game")

/-- Source: `importTournaments(jsonString)` in `App.tsx`, applied to the
outcome of `JSON.parse(jsonString)` (`none` when parsing threw). Every
failure is surfaced as a thrown `Error`, modelled by `Except.error`. -/
def importTournaments (parsed : Option Json) : Except String (List Json) :=
  match parsed with
  | none => .error "Failed to parse tournaments"
  | some (.arr data) =>
    if data.all validTournamentRecord then .ok data
    else .error "Invalid tournament"
  | some _ => .error "Invalid format: expected an array of tournaments"

/-- `Map.set` on a map represented as its insertion-ordered entry list:
replace in place when the key exists, append otherwise. -/
def mapSet (entries : List (String × Tournament)) (key : String)
    (value : Tournament) : List (String × Tournament) :=
  if entries.any (fun e => e.1 == key) then
    entries.map (fun e => if e.1 == key then (key, value) else e)
  else entries ++ [(key, value)]

/-- The normalization `db.importTournaments` applies to each incoming
record: `isStarted ?? (matches.length > 0)` and `finalizedRounds ?? []`
default absent legacy fields (the identity on this total record type),
and `updatedAt` is stamped with `Date.now()`. -/
def normalizeImported (t : Tournament) (now : Nat) : Tournament :=
  { t with updatedAt := now }

/-- Source: the merge of `db.importTournaments` — existing records into
a `Map` keyed by id, then each new record `set` over it (replacing same
ids), returning the map's values. -/
def mergeTournaments (existing newTournaments : List Tournament) (now : Nat) :
    List Tournament :=
  let m0 := existing.foldl (fun m t => mapSet m t.id t) []
  let m1 := newTournaments.foldl
    (fun m t => mapSet m t.id (normalizeImported t now)) m0
  m1.map (fun e => e.2)

/-! ### Generic list lemmas used below -/

theorem foldl_fixed {α β : Type _} (step : α → β → α) (b : α) (l : List β)
    (h : ∀ x ∈ l, step b x = b) : l.foldl step b = b := by
  induction l with
  | nil => rfl
  | cons x xs ih =>
    simp only [List.foldl_cons, h x (List.mem_cons_self x xs)]
    exact ih (fun y hy => h y (List.mem_cons_of_mem x hy))

theorem find?_ext {α : Type _} (p q : α → Bool) (l : List α)
    (h : ∀ a ∈ l, p a = q a) : l.find? p = l.find? q := by
  induction l with
  | nil => rfl
  | cons x xs ih =>
    simp only [List.find?_cons]
    rw [h x (List.mem_cons_self x xs)]
    cases q x with
    | true => rfl
    | false => exact ih (fun a ha => h a (List.mem_cons_of_mem x ha))

theorem filter_flatMap {α β : Type _} (l : List α) (f : α → List β) (p : β → Bool) :
    (l.flatMap f).filter p = l.flatMap (fun a => (f a).filter p) := by
  induction l with
  | nil => rfl
  | cons x xs ih => simp [List.flatMap_cons, List.filter_append, ih]

theorem flatMap_nil_of_forall {β : Type _} (l : List Nat) (g : Nat → List β)
    (h : ∀ y ∈ l, g y = []) : l.flatMap g = [] := by
  induction l with
  | nil => rfl
  | cons z zs ih =>
    simp only [List.flatMap_cons, h z (List.mem_cons_self z zs), List.nil_append]
    exact ih (fun y hy => h y (List.mem_cons_of_mem z hy))

theorem flatMap_eq_of_nodup {β : Type _} (l : List Nat) (g : Nat → List β) (r : Nat)
    (hnd : l.Nodup) (hmem : r ∈ l) (hother : ∀ x ∈ l, x ≠ r → g x = []) :
    l.flatMap g = g r := by
  induction l with
  | nil => cases hmem
  | cons x xs ih =>
    by_cases hx : x = r
    · subst hx
      have hz : ∀ y ∈ xs, g y = [] := by
        intro y hy
        refine hother y (List.mem_cons_of_mem x hy) ?_
        intro hcon
        subst hcon
        exact (List.nodup_cons.1 hnd).1 hy
      simp [List.flatMap_cons, flatMap_nil_of_forall xs g hz]
    · have hmem2 : r ∈ xs := by
        rcases List.mem_cons.1 hmem with h1 | h1
        · exact absurd h1.symm hx
        · exact h1
      have hxnil : g x = [] := hother x (List.mem_cons_self x xs) hx
      simp only [List.flatMap_cons, hxnil, List.nil_append]
      exact ih (List.nodup_cons.1 hnd).2 hmem2
        (fun y hy hne => hother y (List.mem_cons_of_mem x hy) hne)

/-! ### C10: best-of with both sides at or past the target -/

/-- C10: in `best_of` mode with a configured (nonzero) target score and
both slots occupied, when both scores reach or exceed the target,
`determineWinner` returns the slot-1 participant, because the slot-1
check comes first. -/
theorem determineWinner_best_of_both_reach_target (tournament : Tournament)
    (m : BMatch) (p q : Participant) (ts s1 s2 : Nat)
    (hmode : tournament.scoringMode = ScoringMode.best_of)
    (hts : tournament.targetScore = some ts) (hts0 : ts ≠ 0)
    (hp : m.participant1 = some p) (hq : m.participant2 = some q)
    (h1 : ts ≤ s1) (h2 : ts ≤ s2) :
    determineWinner tournament m s1 s2 = some p := by
  simp [determineWinner, hp, hq, hmode, hts, hts0, h1]

def bestOfT : Tournament :=
  { id := "t-bo", name := "BO", game := "G", scoringMode := .best_of,
    scoreLabel := "wins", targetScore := some 3, seedingMode := .random,
    isStarted := true, participants := [], «matches» := [], currentRound := 1,
    totalRounds := 1, finalizedRounds := [], createdAt := 0, updatedAt := 0 }

def partX : Participant := { id := "x", name := "Xena", gamePoints := 0 }

def partY : Participant := { id := "y", name := "Yuri", gamePoints := 0 }

def bestOfM : BMatch :=
  { id := "m-bo", round := 1, position := 1, participant1 := some partX,
    participant2 := some partY, participant1Score := 0, participant2Score := 0,
    winner := none, wildCardParticipant1 := false, wildCardParticipant2 := false }

/-- Witness for C10 at target 3 and scores (4, 3). -/
theorem determineWinner_best_of_both_reach_target_witness :
    determineWinner bestOfT bestOfM 4 3 = some partX :=
  determineWinner_best_of_both_reach_target bestOfT bestOfM partX partY 3 4 3
    rfl rfl (by decide) rfl rfl (by decide) (by decide)

/-! ### C5: lower_score semantics -/

def lowerT : Tournament :=
  { id := "t-ls", name := "LS", game := "G", scoringMode := .lower_score,
    scoreLabel := "time", targetScore := none, seedingMode := .random,
    isStarted := true, participants := [], «matches» := [], currentRound := 1,
    totalRounds := 1, finalizedRounds := [], createdAt := 0, updatedAt := 0 }

/-- Counterexample to C5 as stated: in `lower_score` mode with scores
`(0, 5)` the code makes the nonzero-scoring slot-2 participant win, not
the zero-scoring slot-1 participant as the claim says. -/
theorem determineWinner_lower_score_zero_claim_counterexample :
    determineWinner lowerT bestOfM 0 5 = some partY ∧
      determineWinner lowerT bestOfM 0 5 ≠ some partX ∧
      bestOfM.participant1 = some partX ∧ bestOfM.participant2 = some partY := by
  decide

/-- C5 amended: in `lower_score` mode with both slots occupied, equal
scores (in particular both zero) give no winner; when exactly one score
is 0 the zero-scoring side loses (the nonzero-scoring side wins); when
both scores are nonzero and different, the side with the lower score
wins. -/
theorem determineWinner_lower_score_spec (tournament : Tournament) (m : BMatch)
    (p q : Participant) (s1 s2 : Nat)
    (hmode : tournament.scoringMode = ScoringMode.lower_score)
    (hp : m.participant1 = some p) (hq : m.participant2 = some q) :
    (s1 = s2 → determineWinner tournament m s1 s2 = none) ∧
    (s1 = 0 → s2 ≠ 0 → determineWinner tournament m s1 s2 = some q) ∧
    (s2 = 0 → s1 ≠ 0 → determineWinner tournament m s1 s2 = some p) ∧
    (s1 ≠ 0 → s2 ≠ 0 → s1 < s2 → determineWinner tournament m s1 s2 = some p) ∧
    (s1 ≠ 0 → s2 ≠ 0 → s2 < s1 → determineWinner tournament m s1 s2 = some q) := by
  refine ⟨?_, ?_, ?_, ?_, ?_⟩
  · intro h
    subst h
    simp [determineWinner, hp, hq, hmode]
  · intro h1 h2
    subst h1
    have hne : (0 : Nat) ≠ s2 := fun hcon => h2 hcon.symm
    simp [determineWinner, hp, hq, hmode, hne, h2]
  · intro h2 h1
    subst h2
    simp [determineWinner, hp, hq, hmode, h1]
  · intro h1 h2 hlt
    have hne : s1 ≠ s2 := Nat.ne_of_lt hlt
    simp [determineWinner, hp, hq, hmode, hne, h1, h2, hlt]
  · intro h1 h2 hlt
    have hne : s1 ≠ s2 := Nat.ne_of_gt hlt
    have hnlt : ¬ s1 < s2 := Nat.not_lt.2 (Nat.le_of_lt hlt)
    simp [determineWinner, hp, hq, hmode, hne, h1, h2, hnlt]

/-- Witness for the amended C5 at scores (2, 5): the lower nonzero score
wins. -/
theorem determineWinner_lower_score_spec_witness :
    determineWinner lowerT bestOfM 2 5 = some partX :=
  (determineWinner_lower_score_spec lowerT bestOfM partX partY 2 5 rfl rfl
    rfl).2.2.2.1 (by decide) (by decide) (by decide)

/-! ### C8: resetTournament -/

def resetT : Tournament :=
  { id := "t-r", name := "R", game := "G", scoringMode := .higher_score,
    scoreLabel := "pts", targetScore := none, seedingMode := .seeded,
    isStarted := true,
    participants :=
      [{ id := "1", name := "Ann", gamePoints := 7 },
       { id := "2", name := "Ben", gamePoints := 3 },
       { id := "3", name := "Cal", gamePoints := 5 },
       { id := "4", name := "Dee", gamePoints := 1 }],
    «matches» := [bestOfM], currentRound := 2, totalRounds := 2,
    finalizedRounds := [1], createdAt := 0, updatedAt := 0 }

/-- Counterexample to C8 as stated: `db.resetTournament` sets
`totalRounds` to the constant 0; it is not recomputed from the current
participant count (here 4 participants, so a recomputation per the
spec's `totalRounds = ceil(log2 n)` invariant would give 2). -/
theorem resetTournament_totalRounds_counterexample :
    (resetTournamentRecord resetT 99).participants.length = 4 ∧
      ceilLog2 (resetTournamentRecord resetT 99).participants.length = 2 ∧
      (resetTournamentRecord resetT 99).totalRounds = 0 := by
  decide

/-- C8 amended: `resetTournament` returns a tournament with empty
matches, empty finalized rounds, the started flag cleared,
`totalRounds` set to the constant 0 (not recomputed) and `currentRound`
set to 1, every participant's `gamePoints` zeroed, while the roster's
ids and names (in order) and the tournament's identifier, name, game
and scoring/seeding settings are unchanged. -/
theorem resetTournamentRecord_spec (t : Tournament) (now : Nat) :
    (resetTournamentRecord t now).«matches» = [] ∧
    (resetTournamentRecord t now).finalizedRounds = [] ∧
    (resetTournamentRecord t now).isStarted = false ∧
    (resetTournamentRecord t now).totalRounds = 0 ∧
    (resetTournamentRecord t now).currentRound = 1 ∧
    (∀ p ∈ (resetTournamentRecord t now).participants, p.gamePoints = 0) ∧
    (resetTournamentRecord t now).participants.map (fun p => p.id) =
      t.participants.map (fun p => p.id) ∧
    (resetTournamentRecord t now).participants.map (fun p => p.name) =
      t.participants.map (fun p => p.name) ∧
    (resetTournamentRecord t now).id = t.id ∧
    (resetTournamentRecord t now).name = t.name ∧
    (resetTournamentRecord t now).game = t.game ∧
    (resetTournamentRecord t now).scoringMode = t.scoringMode ∧
    (resetTournamentRecord t now).scoreLabel = t.scoreLabel ∧
    (resetTournamentRecord t now).targetScore = t.targetScore ∧
    (resetTournamentRecord t now).seedingMode = t.seedingMode := by
  refine ⟨rfl, rfl, rfl, rfl, rfl, ?_, ?_, ?_, rfl, rfl, rfl, rfl, rfl, rfl, rfl⟩
  · intro p hp
    simp only [resetTournamentRecord, List.mem_map] at hp
    rcases hp with ⟨q, _, rfl⟩
    rfl
  · simp [resetTournamentRecord, List.map_map, Function.comp]
  · simp [resetTournamentRecord, List.map_map, Function.comp]

/-! ### C4: canFinalizeRound characterization -/

/-- The claim's three-condition description of `canFinalizeRound`:
false if `round > totalRounds`, false if some match of the round with
both slots occupied lacks a winner, false if `round < totalRounds` and
the next round shows a winner or a nonzero score; otherwise true. -/
def canFinalizeRoundClaim (t : Tournament) (round : Nat) : Bool :=
  decide (round ≤ t.totalRounds) &&
    t.«matches».all (fun m =>
      !(m.round == round && m.participant1.isSome && m.participant2.isSome &&
        !m.winner.isSome)) &&
    !(decide (round < t.totalRounds) &&
      t.«matches».any (fun m => m.round == round + 1 &&
        (m.winner.isSome || decide (0 < m.participant1Score) ||
          decide (0 < m.participant2Score))))

/-- The claim amended by the one condition the code adds through
`isRoundComplete`'s empty case: the round must also contain at least one
match with an occupant. -/
def canFinalizeRoundAmended (t : Tournament) (round : Nat) : Bool :=
  canFinalizeRoundClaim t round &&
    t.«matches».any (fun m => m.round == round &&
      (m.participant1.isSome || m.participant2.isSome))

def emptyRound1T : Tournament :=
  { id := "t-e", name := "E", game := "G", scoringMode := .higher_score,
    scoreLabel := "pts", targetScore := none, seedingMode := .random,
    isStarted := true, participants := [], «matches» := [], currentRound := 1,
    totalRounds := 1, finalizedRounds := [], createdAt := 0, updatedAt := 0 }

/-- Counterexample to C4 as stated: a tournament whose round 1 exists
(`totalRounds = 1`) but holds no occupied match satisfies all three of
the claim's conditions for `true`, yet `canFinalizeRound` returns
`false`. -/
theorem canFinalizeRound_claim_counterexample :
    canFinalizeRound emptyRound1T 1 = false ∧
      canFinalizeRoundClaim emptyRound1T 1 = true := by
  decide

theorem isRoundComplete_iff (ms : List BMatch) (r : Nat) :
    isRoundComplete ms r = true ↔
      ((∀ m ∈ ms, m.round = r → m.participant1.isSome = true →
          m.participant2.isSome = true → m.winner.isSome = true) ∧
        ∃ m ∈ ms, m.round = r ∧
          (m.participant1.isSome = true ∨ m.participant2.isSome = true)) := by
  unfold isRoundComplete
  by_cases hpe : ((ms.filter (fun m => m.round == r)).filter
      (fun m => m.participant1.isSome && m.participant2.isSome)).isEmpty = true
  · rw [if_pos hpe]
    have hnil := List.isEmpty_iff.1 hpe
    have hvac : ∀ m ∈ ms, m.round = r → m.participant1.isSome = true →
        m.participant2.isSome = true → m.winner.isSome = true := by
      intro m hm hr h1 h2
      exfalso
      have hmem : m ∈ (ms.filter (fun m => m.round == r)).filter
          (fun m => m.participant1.isSome && m.participant2.isSome) := by
        refine List.mem_filter.2 ⟨List.mem_filter.2 ⟨hm, ?_⟩, ?_⟩
        · simp [hr]
        · simp [h1, h2]
      rw [hnil] at hmem
      exact absurd hmem (List.not_mem_nil m)
    constructor
    · intro hany
      refine ⟨hvac, ?_⟩
      rcases List.any_eq_true.1 hany with ⟨m, hm, hocc⟩
      rcases List.mem_filter.1 hm with ⟨hms, hr⟩
      refine ⟨m, hms, by simpa using hr, ?_⟩
      rcases Bool.or_eq_true_iff.1 hocc with h | h
      · exact Or.inl h
      · exact Or.inr h
    · rintro ⟨-, m, hm, hr, hocc⟩
      refine List.any_eq_true.2 ⟨m, List.mem_filter.2 ⟨hm, by simp [hr]⟩, ?_⟩
      rcases hocc with h | h
      · simp [h]
      · simp [h]
  · rw [if_neg hpe]
    have hne : ((ms.filter (fun m => m.round == r)).filter
        (fun m => m.participant1.isSome && m.participant2.isSome)) ≠ [] := by
      intro hcon
      exact hpe (List.isEmpty_iff.2 hcon)
    constructor
    · intro hall
      constructor
      · intro m hm hr h1 h2
        have hmem : m ∈ (ms.filter (fun m => m.round == r)).filter
            (fun m => m.participant1.isSome && m.participant2.isSome) := by
          refine List.mem_filter.2 ⟨List.mem_filter.2 ⟨hm, ?_⟩, ?_⟩
          · simp [hr]
          · simp [h1, h2]
        exact List.all_eq_true.1 hall m hmem
      · rcases List.exists_mem_of_ne_nil _ hne with ⟨m, hm⟩
        rcases List.mem_filter.1 hm with ⟨hm2, hboth⟩
        rcases List.mem_filter.1 hm2 with ⟨hms, hr⟩
        refine ⟨m, hms, by simpa using hr, ?_⟩
        exact Or.inl (Bool.and_eq_true_iff.1 hboth).1
    · rintro ⟨hall, -⟩
      refine List.all_eq_true.2 ?_
      intro m hm
      rcases List.mem_filter.1 hm with ⟨hm2, hboth⟩
      rcases List.mem_filter.1 hm2 with ⟨hms, hr⟩
      rcases Bool.and_eq_true_iff.1 hboth with ⟨h1, h2⟩
      exact hall m hms (by simpa using hr) h1 h2

theorem hasNextRoundScores_iff (ms : List BMatch) (r : Nat) :
    hasNextRoundScores ms r = true ↔
      ∃ m ∈ ms, m.round = r + 1 ∧
        (m.winner.isSome = true ∨ 0 < m.participant1Score ∨
          0 < m.participant2Score) := by
  unfold hasNextRoundScores
  rw [List.any_eq_true]
  constructor
  · rintro ⟨m, hm, hcond⟩
    rcases List.mem_filter.1 hm with ⟨hms, hr⟩
    refine ⟨m, hms, by simpa using hr, ?_⟩
    rcases Bool.or_eq_true_iff.1 hcond with h | h
    · rcases Bool.or_eq_true_iff.1 h with h2 | h2
      · exact Or.inl h2
      · exact Or.inr (Or.inl (of_decide_eq_true h2))
    · exact Or.inr (Or.inr (of_decide_eq_true h))
  · rintro ⟨m, hm, hr, hcond⟩
    refine ⟨m, List.mem_filter.2 ⟨hm, by simp [hr]⟩, ?_⟩
    rcases hcond with h | h | h
    · simp [h]
    · simp [h]
    · simp [h]

theorem any_filter_eq {α : Type _} (p q : α → Bool) (l : List α) :
    (l.filter p).any q = l.any (fun a => p a && q a) := by
  induction l with
  | nil => rfl
  | cons x xs ih =>
    by_cases h : p x
    · simp [List.filter_cons, h, ih]
    · simp [List.filter_cons, h, ih]

theorem isRoundComplete_eq_bool (ms : List BMatch) (r : Nat) :
    isRoundComplete ms r =
      ((ms.all fun m => !(m.round == r && m.participant1.isSome &&
          m.participant2.isSome && !m.winner.isSome)) &&
        (ms.any fun m => m.round == r &&
          (m.participant1.isSome || m.participant2.isSome))) := by
  rw [Bool.eq_iff_iff, isRoundComplete_iff, Bool.and_eq_true_iff,
    List.all_eq_true, List.any_eq_true]
  constructor
  · rintro ⟨hall, m, hm, hr, hocc⟩
    constructor
    · intro x hx
      by_cases hxr : x.round = r
      · by_cases hx1 : x.participant1.isSome = true
        · by_cases hx2 : x.participant2.isSome = true
          · have := hall x hx hxr hx1 hx2
            simp [hxr, hx1, hx2, this]
          · simp at hx2
            simp [hxr, hx1, hx2]
        · simp at hx1
          simp [hxr, hx1]
      · simp [hxr]
    · refine ⟨m, hm, ?_⟩
      rcases hocc with ho | ho
      · simp [hr, ho]
      · simp [hr, ho]
  · rintro ⟨hall, m, hm, hcond⟩
    constructor
    · intro x hx hxr h1 h2
      have := hall x hx
      simp [hxr, h1, h2] at this
      exact this
    · rcases Bool.and_eq_true_iff.1 hcond with ⟨hr, hocc⟩
      refine ⟨m, hm, by simpa using hr, ?_⟩
      rcases Bool.or_eq_true_iff.1 hocc with ho | ho
      · exact Or.inl ho
      · exact Or.inr ho

/-- C4 amended: `canFinalizeRound` equals the claim's three-condition
description strengthened by the one extra requirement the code adds
through `isRoundComplete`'s empty case: the round must also contain at
least one match with an occupant. -/
theorem canFinalizeRound_eq_amended (t : Tournament) (round : Nat) :
    canFinalizeRound t round = canFinalizeRoundAmended t round := by
  unfold canFinalizeRoundAmended canFinalizeRoundClaim canFinalizeRound
  have hbridge : (t.«matches».any fun m => m.round == round + 1 &&
      (m.winner.isSome || decide (0 < m.participant1Score) ||
        decide (0 < m.participant2Score))) =
      hasNextRoundScores t.«matches» round := by
    unfold hasNextRoundScores
    exact (any_filter_eq _ _ _).symm
  rw [hbridge, isRoundComplete_eq_bool]
  by_cases h1 : t.totalRounds < round
  · rw [if_pos h1]
    have hle : decide (round ≤ t.totalRounds) = false := by
      simp
      omega
    simp [hle]
  · rw [if_neg h1]
    have hle : decide (round ≤ t.totalRounds) = true := by
      simp
      omega
    rw [hle]
    generalize (t.«matches».all fun m => !(m.round == round &&
      m.participant1.isSome && m.participant2.isSome && !m.winner.isSome)) = A
    generalize (t.«matches».any fun m => m.round == round &&
      (m.participant1.isSome || m.participant2.isSome)) = B
    generalize hasNextRoundScores t.«matches» round = N
    generalize decide (round < t.totalRounds) = C
    cases A <;> cases B <;> cases N <;> cases C <;> simp

/-! ### C1: the generated bracket structure -/

theorem sum_pow_range' (R : Nat) :
    ((List.range' 1 R).map (fun r => 2 ^ (R - r))).sum = 2 ^ R - 1 := by
  induction R with
  | zero => rfl
  | succ n ih =>
    rw [List.range'_concat, List.map_append, List.sum_append]
    have hcong : (List.range' 1 n).map (fun r => 2 ^ (n + 1 - r)) =
        (List.range' 1 n).map (fun r => 2 * 2 ^ (n - r)) := by
      refine List.map_congr_left ?_
      intro r hr
      rcases List.mem_range'.1 hr with ⟨i, hi, rfl⟩
      have hstep : n + 1 - (1 + 1 * i) = (n - (1 + 1 * i)) + 1 := by omega
      rw [hstep, pow_succ]
      ring
    rw [hcong, List.sum_map_mul_left, ih]
    have hlast : 2 ^ (n + 1 - (1 + 1 * n)) = 1 := by
      have : n + 1 - (1 + 1 * n) = 0 := by omega
      rw [this, pow_zero]
    simp only [List.map_cons, List.map_nil, List.sum_cons, List.sum_nil, hlast]
    have hp : 1 ≤ 2 ^ n := Nat.one_le_two_pow
    have hs : (2 : Nat) ^ (n + 1) = 2 ^ n * 2 := pow_succ 2 n
    omega

/-- C1: `generateMatchStructure` returns the empty list below 2
participants; otherwise, with `rounds = ceilLog2 n` (which is exactly
`ceil(log2 n)`: `2 ^ (rounds - 1) < n ≤ 2 ^ rounds`), it returns
`2 ^ rounds - 1` matches in total, the matches of each round
`r ∈ 1..rounds` carry exactly the positions `1..2^(rounds-r)` in order,
and every generated match has empty slots, zero scores, no winner and a
round number in `1..rounds`. -/
theorem generateMatchStructure_spec (uuid : Nat → Nat → String) (n : Nat) :
    (n < 2 → generateMatchStructure uuid n = []) ∧
    (2 ≤ n →
      2 ^ (ceilLog2 n - 1) < n ∧ n ≤ 2 ^ ceilLog2 n ∧
      (generateMatchStructure uuid n).length = 2 ^ ceilLog2 n - 1 ∧
      (∀ r, 1 ≤ r → r ≤ ceilLog2 n →
        ((generateMatchStructure uuid n).filter (fun m => m.round == r)).map
            (fun m => m.position) = List.range' 1 (2 ^ (ceilLog2 n - r))) ∧
      (∀ m ∈ generateMatchStructure uuid n,
        m.participant1 = none ∧ m.participant2 = none ∧
          m.participant1Score = 0 ∧ m.participant2Score = 0 ∧ m.winner = none ∧
          1 ≤ m.round ∧ m.round ≤ ceilLog2 n)) := by
  constructor
  · intro h
    simp [generateMatchStructure, h]
  · intro h2
    have hnlt : ¬ n < 2 := by omega
    refine ⟨pow_pred_ceilLog2_lt h2, ceilLog2_le_pow n, ?_, ?_, ?_⟩
    · rw [generateMatchStructure, if_neg hnlt, List.length_flatMap]
      have hcong : (List.range' 1 (ceilLog2 n)).map
          (List.length ∘ fun round => (List.range' 1 (2 ^ (ceilLog2 n - round))).map
            (fun position =>
              ({ id := uuid round position, round := round, position := position,
                 participant1 := none, participant2 := none,
                 participant1Score := 0, participant2Score := 0, winner := none,
                 wildCardParticipant1 := false,
                 wildCardParticipant2 := false } : BMatch))) =
          (List.range' 1 (ceilLog2 n)).map (fun r => 2 ^ (ceilLog2 n - r)) := by
        refine List.map_congr_left ?_
        intro r _
        simp [Function.comp, List.length_map, List.length_range']
      rw [hcong, sum_pow_range']
    · intro r h1r hrr
      rw [generateMatchStructure, if_neg hnlt, filter_flatMap]
      rw [flatMap_eq_of_nodup _ _ r (List.nodup_range' 1 (ceilLog2 n))
        (List.mem_range'.2 ⟨r - 1, by omega, by omega⟩) ?_]
      · have hself : ((List.range' 1 (2 ^ (ceilLog2 n - r))).map
            (fun position =>
              ({ id := uuid r position, round := r, position := position,
                 participant1 := none, participant2 := none,
                 participant1Score := 0, participant2Score := 0, winner := none,
                 wildCardParticipant1 := false,
                 wildCardParticipant2 := false } : BMatch))).filter
              (fun m => m.round == r) =
            (List.range' 1 (2 ^ (ceilLog2 n - r))).map
              (fun position =>
                ({ id := uuid r position, round := r, position := position,
                   participant1 := none, participant2 := none,
                   participant1Score := 0, participant2Score := 0, winner := none,
                   wildCardParticipant1 := false,
                   wildCardParticipant2 := false } : BMatch)) := by
          refine List.filter_eq_self.2 ?_
          intro m hm
          rcases List.mem_map.1 hm with ⟨pos, _, rfl⟩
          simp
        rw [hself, List.map_map]
        have : ((fun m => m.position) ∘ fun position =>
            ({ id := uuid r position, round := r, position := position,
               participant1 := none, participant2 := none,
               participant1Score := 0, participant2Score := 0, winner := none,
               wildCardParticipant1 := false,
               wildCardParticipant2 := false } : BMatch)) = fun position => position := by
          funext position
          rfl
        rw [this]
        exact List.map_id _
      · intro x _ hxr
        refine List.filter_eq_nil_iff.2 ?_
        intro m hm
        rcases List.mem_map.1 hm with ⟨pos, _, rfl⟩
        simp [hxr]
    · intro m hm
      rw [generateMatchStructure, if_neg hnlt] at hm
      rcases List.mem_flatMap.1 hm with ⟨round, hround, hmem⟩
      rcases List.mem_map.1 hmem with ⟨pos, _, rfl⟩
      rcases List.mem_range'.1 hround with ⟨i, hi, rfl⟩
      refine ⟨rfl, rfl, rfl, rfl, rfl, ?_, ?_⟩
      · show 1 ≤ 1 + 1 * i
        omega
      · show 1 + 1 * i ≤ ceilLog2 n
        omega

/-- Witness for C1 at `n = 5` (rounds = 3, 7 matches). -/
theorem generateMatchStructure_spec_witness :
    (generateMatchStructure (fun _ _ => "m") 5).length = 2 ^ ceilLog2 5 - 1 :=
  ((generateMatchStructure_spec (fun _ _ => "m") 5).2 (by decide)).2.2.1

/-! ### C9: import validation and merge-by-identifier -/

theorem find?_map_replace (m : List (String × Tournament)) (k : String)
    (v : Tournament) (j : String) :
    (m.map (fun e => if e.1 == k then (k, v) else e)).find? (fun e => e.1 == j) =
      if j = k then (m.find? (fun e => e.1 == k)).map (fun _ => (k, v))
      else m.find? (fun e => e.1 == j) := by
  induction m with
  | nil => by_cases hjk : j = k <;> simp [hjk]
  | cons e es ih =>
    by_cases hek : e.1 = k
    · by_cases hjk : j = k
      · simp only [List.map_cons, if_pos (by simp [hek] : (e.1 == k) = true)]
        rw [List.find?_cons_of_pos _ (by simp [hjk]), if_pos hjk,
          List.find?_cons_of_pos _ (by simp [hek])]
        rfl
      · simp only [List.map_cons, if_pos (by simp [hek] : (e.1 == k) = true)]
        rw [List.find?_cons_of_neg _ (by simp; exact fun hc => hjk hc.symm),
          if_neg hjk,
          List.find?_cons_of_neg _ (by simp [hek]; exact fun hc => hjk hc.symm)]
        have := ih
        rw [if_neg hjk] at this
        exact this
    · simp only [List.map_cons,
        if_neg (by simp [hek] : ¬ (e.1 == k) = true)]
      by_cases hej : e.1 = j
      · have hjk : j ≠ k := fun hc => hek (hej.trans hc)
        rw [List.find?_cons_of_pos _ (by simp [hej]), if_neg hjk,
          List.find?_cons_of_pos _ (by simp [hej])]
      · rw [List.find?_cons_of_neg _ (by simp [hej]), ih]
        by_cases hjk : j = k
        · subst hjk
          rw [if_pos rfl, if_pos rfl,
            List.find?_cons_of_neg _ (by simp [hek])]
        · rw [if_neg hjk, if_neg hjk,
            List.find?_cons_of_neg _ (by simp [hej])]

theorem mapSet_find? (m : List (String × Tournament)) (k : String) (v : Tournament)
    (j : String) :
    (mapSet m k v).find? (fun e => e.1 == j) =
      if j = k then some (k, v) else m.find? (fun e => e.1 == j) := by
  unfold mapSet
  by_cases hk : m.any (fun e => e.1 == k) = true
  · rw [if_pos hk, find?_map_replace]
    by_cases hjk : j = k
    · rw [if_pos hjk, if_pos hjk]
      rcases List.any_eq_true.1 hk with ⟨e, he, hek⟩
      cases hfind : m.find? (fun e => e.1 == k) with
      | some e2 => simp
      | none =>
        rw [List.find?_eq_none] at hfind
        exact absurd hek (hfind e he)
    · rw [if_neg hjk, if_neg hjk]
  · rw [if_neg hk, List.find?_append]
    by_cases hjk : j = k
    · subst hjk
      have hnone : m.find? (fun e => e.1 == j) = none := by
        rw [List.find?_eq_none]
        intro x hx hcon
        exact absurd (List.any_eq_true.2 ⟨x, hx, hcon⟩) hk
      rw [hnone, if_pos rfl]
      simp
    · rw [if_neg hjk]
      have hsingle : ([(k, v)] : List (String × Tournament)).find?
          (fun e => e.1 == j) = none := by
        rw [List.find?_eq_none]
        intro x hx hcon
        have : x = (k, v) := by simpa using hx
        subst this
        exact hjk (eq_of_beq hcon).symm
      rw [hsingle, Option.or_none]

/-- The fold of `Map.set` calls over a list of incoming tournaments. -/
def setAllBy (g : Tournament → Tournament) (m0 : List (String × Tournament))
    (l : List Tournament) : List (String × Tournament) :=
  l.foldl (fun m t => mapSet m t.id (g t)) m0

theorem setAllBy_find? (g : Tournament → Tournament)
    (m0 : List (String × Tournament)) (l : List Tournament) (j : String) :
    (setAllBy g m0 l).find? (fun e => e.1 == j) =
      match (l.filter (fun t => t.id == j)).getLast? with
      | some t => some (j, g t)
      | none => m0.find? (fun e => e.1 == j) := by
  induction l using List.reverseRecOn with
  | nil => rfl
  | append_singleton ts t ih =>
    unfold setAllBy
    rw [List.foldl_append]
    have hstep : (setAllBy g m0 (ts ++ [t])).find? (fun e => e.1 == j) =
        (mapSet (setAllBy g m0 ts) t.id (g t)).find? (fun e => e.1 == j) := by
      unfold setAllBy
      rw [List.foldl_append]
      rfl
    rw [show List.foldl (fun m t => mapSet m t.id (g t))
        (List.foldl (fun m t => mapSet m t.id (g t)) m0 ts) [t] =
        mapSet (setAllBy g m0 ts) t.id (g t) from rfl]
    rw [mapSet_find?, List.filter_append]
    by_cases htj : t.id = j
    · rw [if_pos htj.symm]
      have : List.filter (fun t => t.id == j) [t] = [t] := by simp [htj]
      rw [this, List.getLast?_concat]
      rw [htj]
    · rw [if_neg (fun hc => htj hc.symm)]
      have : List.filter (fun t => t.id == j) [t] = [] := by
        simp [htj]
      rw [this, List.append_nil, ih]

theorem mapSet_mem (m : List (String × Tournament)) (k : String) (v : Tournament)
    (e : String × Tournament) (he : e ∈ mapSet m k v) : e ∈ m ∨ e = (k, v) := by
  unfold mapSet at he
  by_cases hk : m.any (fun e => e.1 == k) = true
  · rw [if_pos hk] at he
    rcases List.mem_map.1 he with ⟨x, hx, hxe⟩
    by_cases hxk : (x.1 == k) = true
    · rw [if_pos hxk] at hxe
      exact Or.inr hxe.symm
    · rw [if_neg hxk] at hxe
      exact Or.inl (hxe ▸ hx)
  · rw [if_neg hk] at he
    rcases List.mem_append.1 he with h | h
    · exact Or.inl h
    · right
      simpa using h

theorem setAllBy_keyConsistent (g : Tournament → Tournament)
    (hg : ∀ t, (g t).id = t.id) (l : List Tournament)
    (m0 : List (String × Tournament)) (h0 : ∀ e ∈ m0, e.2.id = e.1) :
    ∀ e ∈ setAllBy g m0 l, e.2.id = e.1 := by
  induction l generalizing m0 with
  | nil => exact h0
  | cons t ts ih =>
    refine ih (mapSet m0 t.id (g t)) ?_
    intro e he
    rcases mapSet_mem m0 t.id (g t) e he with h | h
    · exact h0 e h
    · subst h
      exact hg t

/-- C9: `importTournaments` succeeds exactly when the input parsed to a
JSON array in which every record has truthy `id`, `name` and `game`
fields, and then returns exactly the parsed records; merging into the
store keeps every stored tournament whose identifier does not occur
among the imported records and maps each imported identifier to its
(last) imported record, i.e. merge is replace-by-identifier. -/
theorem importTournaments_merge_spec :
    (∀ (parsed : Option Json) (l : List Json),
      importTournaments parsed = Except.ok l ↔
        parsed = some (Json.arr l) ∧ l.all validTournamentRecord = true) ∧
    (∀ (existing newTs : List Tournament) (now : Nat) (j : String),
      (mergeTournaments existing newTs now).find? (fun t => t.id == j) =
        match (newTs.filter (fun t => t.id == j)).getLast? with
        | some t => some (normalizeImported t now)
        | none => (existing.filter (fun t => t.id == j)).getLast?) := by
  constructor
  · intro parsed l
    constructor
    · intro h
      cases parsed with
      | none => exact absurd h (by simp [importTournaments])
      | some jv =>
        cases jv with
        | arr data =>
          by_cases hall : data.all validTournamentRecord = true
          · rw [importTournaments, if_pos hall] at h
            have : data = l := by
              injection h
            subst this
            exact ⟨rfl, hall⟩
          · rw [importTournaments, if_neg hall] at h
            exact absurd h (by simp)
        | null => exact absurd h (by simp [importTournaments])
        | bool b => exact absurd h (by simp [importTournaments])
        | num x => exact absurd h (by simp [importTournaments])
        | str s => exact absurd h (by simp [importTournaments])
        | obj fs => exact absurd h (by simp [importTournaments])
    · rintro ⟨rfl, hall⟩
      rw [importTournaments, if_pos hall]
  · intro existing newTs now j
    have hmerge : mergeTournaments existing newTs now =
        (setAllBy (fun t => normalizeImported t now)
          (setAllBy (fun t => t) [] existing) newTs).map (fun e => e.2) := rfl
    rw [hmerge, List.find?_map]
    have hkeys : ∀ e ∈ setAllBy (fun t => normalizeImported t now)
        (setAllBy (fun t => t) [] existing) newTs, e.2.id = e.1 := by
      refine setAllBy_keyConsistent (fun t => normalizeImported t now)
        (fun t => rfl) newTs _ ?_
      refine setAllBy_keyConsistent (fun t => t) (fun t => rfl) existing [] ?_
      intro e he
      exact absurd he (List.not_mem_nil e)
    have hpred : (setAllBy (fun t => normalizeImported t now)
          (setAllBy (fun t => t) [] existing) newTs).find?
          ((fun t => t.id == j) ∘ (fun e => e.2)) =
        (setAllBy (fun t => normalizeImported t now)
          (setAllBy (fun t => t) [] existing) newTs).find?
          (fun e => e.1 == j) := by
      refine find?_ext _ _ _ ?_
      intro e he
      simp [Function.comp, hkeys e he]
    rw [hpred, setAllBy_find?, setAllBy_find?]
    cases hnew : (newTs.filter (fun t => t.id == j)).getLast? with
    | some t => rfl
    | none =>
      cases hex : (existing.filter (fun t => t.id == j)).getLast? with
      | some t => rfl
      | none => rfl

/-! ### C6: seeded placement -/

theorem ceilLog2_pos {n : Nat} (h : 2 ≤ n) : 1 ≤ ceilLog2 n := by
  by_contra h0
  push_neg at h0
  have hz : ceilLog2 n = 0 := by omega
  have := ceilLog2_le_pow n
  rw [hz, pow_zero] at this
  omega

theorem generateMatchStructure_filter_round (uuid : Nat → Nat → String) (n r : Nat)
    (h2 : 2 ≤ n) (h1r : 1 ≤ r) (hrr : r ≤ ceilLog2 n) :
    (generateMatchStructure uuid n).filter (fun m => m.round == r) =
      (List.range' 1 (2 ^ (ceilLog2 n - r))).map (fun position =>
        ({ id := uuid r position, round := r, position := position,
           participant1 := none, participant2 := none, participant1Score := 0,
           participant2Score := 0, winner := none, wildCardParticipant1 := false,
           wildCardParticipant2 := false } : BMatch)) := by
  rw [generateMatchStructure, if_neg (by omega : ¬ n < 2), filter_flatMap]
  rw [flatMap_eq_of_nodup _ _ r (List.nodup_range' 1 (ceilLog2 n))
    (List.mem_range'.2 ⟨r - 1, by omega, by omega⟩) ?_]
  · refine List.filter_eq_self.2 ?_
    intro m hm
    rcases List.mem_map.1 hm with ⟨pos, _, rfl⟩
    simp
  · intro x _ hxr
    refine List.filter_eq_nil_iff.2 ?_
    intro m hm
    rcases List.mem_map.1 hm with ⟨pos, _, rfl⟩
    simp [hxr]

theorem seededBefore_trans (a b c : Participant) (hab : seededBefore a b = true)
    (hbc : seededBefore b c = true) : seededBefore a c = true := by
  unfold seededBefore at hab hbc ⊢
  split_ifs at hab hbc ⊢ with h1 h2 h3 <;>
    simp only [decide_eq_true_eq] at * <;>
    first
      | omega
      | exact le_trans hab hbc

theorem seededBefore_total (a b : Participant) :
    seededBefore a b || seededBefore b a := by
  unfold seededBefore
  by_cases h : a.gamePoints = b.gamePoints
  · rw [if_neg (by omega), if_neg (by omega)]
    rcases le_total a.name b.name with hle | hle
    · simp [hle]
    · simp [hle]
  · by_cases h2 : b.gamePoints < a.gamePoints
    · rw [if_pos (by omega)]
      simp [h2]
    · rw [if_pos (by omega), if_pos (by omega)]
      have : a.gamePoints < b.gamePoints := by omega
      simp [this]

/-- C6 amended: for a `seeded` tournament with `n ≥ 2` participants,
participants are ranked by `gamePoints` descending with ties broken by
name ascending (a stable sort of the roster); when `n` is NOT an exact
power of two (`byeCount > 0`), round-1 slots follow the recursive
seed-position permutation of size `bracketSize = 2^ceil(log2 n)` with
out-of-range seed indices left empty, but when `n` IS an exact power of
two the code falls into the sequential branch and fills round-1 matches
in plain ranking order (match `i` gets ranks `2i` and `2i+1`). -/
theorem assignParticipants_seeded_spec (uuid : Nat → Nat → String)
    (shuffle : List Participant → List Participant) (t : Tournament)
    (hmode : t.seedingMode = SeedingMode.seeded)
    (hn : 2 ≤ t.participants.length) :
    List.Pairwise (fun a b => b.gamePoints < a.gamePoints ∨
        (a.gamePoints = b.gamePoints ∧ a.name ≤ b.name))
      (getSeededParticipants t.participants) ∧
    (getSeededParticipants t.participants).Perm t.participants ∧
    (assignParticipantsToMatches uuid shuffle t).totalRounds =
      ceilLog2 t.participants.length ∧
    ((assignParticipantsToMatches uuid shuffle t).«matches».filter
        (fun m => m.round == 1)).map (fun m => (m.participant1, m.participant2)) =
      (if t.participants.length < 2 ^ ceilLog2 t.participants.length then
        (List.range (2 ^ (ceilLog2 t.participants.length - 1))).map (fun i =>
          (((generateBracketSeedPositions
              (2 ^ ceilLog2 t.participants.length))[2 * i]?).bind
            (fun s => (getSeededParticipants t.participants)[s]?),
           ((generateBracketSeedPositions
              (2 ^ ceilLog2 t.participants.length))[2 * i + 1]?).bind
            (fun s => (getSeededParticipants t.participants)[s]?)))
      else
        (List.range (2 ^ (ceilLog2 t.participants.length - 1))).map (fun i =>
          ((getSeededParticipants t.participants)[2 * i]?,
           (getSeededParticipants t.participants)[2 * i + 1]?))) := by
  have hsort : List.Pairwise (fun a b => seededBefore a b = true)
      (getSeededParticipants t.participants) :=
    sortBy_pairwise seededBefore seededBefore_trans seededBefore_total
      t.participants
  refine ⟨?_, sortBy_perm seededBefore t.participants, ?_, ?_⟩
  · refine hsort.imp ?_
    intro a b hab
    unfold seededBefore at hab
    by_cases h : a.gamePoints = b.gamePoints
    · rw [if_neg (by omega)] at hab
      exact Or.inr ⟨h, of_decide_eq_true hab⟩
    · rw [if_pos (by omega)] at hab
      exact Or.inl (of_decide_eq_true hab)
  · unfold assignParticipantsToMatches
    rw [if_neg (by omega : ¬ t.participants.length < 2)]
  · have hR1 : 1 ≤ ceilLog2 t.participants.length := ceilLog2_pos hn
    have hfirst := generateMatchStructure_filter_round uuid
      t.participants.length 1 hn (by omega) hR1
    have hnle : t.participants.length ≤ 2 ^ ceilLog2 t.participants.length :=
      ceilLog2_le_pow t.participants.length
    unfold assignParticipantsToMatches
    rw [if_neg (by omega : ¬ t.participants.length < 2)]
    simp only [hmode, true_and, if_true]
    have hrest : ((generateMatchStructure uuid t.participants.length).filter
        (fun m => !(m.round == 1))).filter (fun m => m.round == 1) = [] := by
      refine List.filter_eq_nil_iff.2 ?_
      intro m hm
      have := (List.mem_filter.1 hm).2
      simp at this
      simp [this]
    have hfr_len : ((generateMatchStructure uuid t.participants.length).filter
        (fun m => m.round == 1)).length =
        2 ^ (ceilLog2 t.participants.length - 1) := by
      rw [hfirst, List.length_map, List.length_range']
    by_cases hbye : 0 < 2 ^ ceilLog2 t.participants.length - t.participants.length
    · rw [if_pos hbye,
        if_pos (by omega : t.participants.length <
          2 ^ ceilLog2 t.participants.length)]
      have hall1 : ∀ m ∈ assignSeededParticipants
          ((generateMatchStructure uuid t.participants.length).filter
            (fun m => m.round == 1))
          (getSeededParticipants t.participants)
          (2 ^ ceilLog2 t.participants.length - t.participants.length),
          (m.round == 1) = true := by
        intro m hm
        unfold assignSeededParticipants at hm
        rcases List.mem_iff_getElem.1 hm with ⟨i, hi, heq⟩
        rw [List.getElem_mapIdx] at heq
        subst heq
        show (((generateMatchStructure uuid t.participants.length).filter
          (fun m => m.round == 1)).get ⟨i, by simpa using hi⟩).round == 1
        have hmem := List.getElem_mem (l :=
          (generateMatchStructure uuid t.participants.length).filter
            (fun m => m.round == 1)) (by simpa using hi)
        exact (List.mem_filter.1 hmem).2
      rw [List.filter_append, List.filter_eq_self.2 hall1, hrest,
        List.append_nil]
      refine List.ext_getElem ?_ ?_
      · simp [assignSeededParticipants, hfr_len]
      · intro i h1 h2
        have hi : i < 2 ^ (ceilLog2 t.participants.length - 1) := by
          simpa [assignSeededParticipants, hfr_len] using h1
        unfold assignSeededParticipants
        simp only [List.getElem_map, List.getElem_mapIdx, List.getElem_range]
        have hfr_i : ∀ hx : i < ((generateMatchStructure uuid
            t.participants.length).filter (fun m => m.round == 1)).length,
            ((generateMatchStructure uuid t.participants.length).filter
              (fun m => m.round == 1))[i] =
            ({ id := uuid 1 (1 + 1 * i), round := 1, position := 1 + 1 * i,
               participant1 := none, participant2 := none,
               participant1Score := 0, participant2Score := 0, winner := none,
               wildCardParticipant1 := false,
               wildCardParticipant2 := false } : BMatch) := by
          intro hx
          have hx2 : i < ((List.range' 1
              (2 ^ (ceilLog2 t.participants.length - 1))).map (fun position =>
              ({ id := uuid 1 position, round := 1, position := position,
                 participant1 := none, participant2 := none,
                 participant1Score := 0, participant2Score := 0, winner := none,
                 wildCardParticipant1 := false,
                 wildCardParticipant2 := false } : BMatch))).length := by
            rw [List.length_map, List.length_range']
            exact hi
          rw [List.getElem_of_eq hfirst hx, List.getElem_map,
            List.getElem_range']
        rw [hfr_i (by omega)]
        rw [hfr_len]
        have hsize : 2 ^ (ceilLog2 t.participants.length - 1) * 2 =
            2 ^ ceilLog2 t.participants.length := by
          rw [← pow_succ]
          congr 1
          omega
        rw [hsize]
        simp [Option.or_none]
    · rw [if_neg hbye,
        if_neg (by omega : ¬ t.participants.length <
          2 ^ ceilLog2 t.participants.length)]
      have hall1 : ∀ m ∈ ((generateMatchStructure uuid
          t.participants.length).filter (fun m => m.round == 1)).mapIdx
          (fun i m =>
            { m with
                participant1 := ((getSeededParticipants
                  t.participants)[2 * i]?).or m.participant1
                participant2 := ((getSeededParticipants
                  t.participants)[2 * i + 1]?).or m.participant2 }),
          (m.round == 1) = true := by
        intro m hm
        rcases List.mem_iff_getElem.1 hm with ⟨i, hi, heq⟩
        rw [List.getElem_mapIdx] at heq
        subst heq
        show (((generateMatchStructure uuid t.participants.length).filter
          (fun m => m.round == 1)).get ⟨i, by simpa using hi⟩).round == 1
        have hmem := List.getElem_mem (l :=
          (generateMatchStructure uuid t.participants.length).filter
            (fun m => m.round == 1)) (by simpa using hi)
        exact (List.mem_filter.1 hmem).2
      rw [List.filter_append, List.filter_eq_self.2 hall1, hrest,
        List.append_nil]
      refine List.ext_getElem ?_ ?_
      · simp [hfr_len]
      · intro i h1 h2
        have hi : i < 2 ^ (ceilLog2 t.participants.length - 1) := by
          simpa [hfr_len] using h1
        simp only [List.getElem_map, List.getElem_mapIdx, List.getElem_range]
        have hfr_i : ∀ hx : i < ((generateMatchStructure uuid
            t.participants.length).filter (fun m => m.round == 1)).length,
            ((generateMatchStructure uuid t.participants.length).filter
              (fun m => m.round == 1))[i] =
            ({ id := uuid 1 (1 + 1 * i), round := 1, position := 1 + 1 * i,
               participant1 := none, participant2 := none,
               participant1Score := 0, participant2Score := 0, winner := none,
               wildCardParticipant1 := false,
               wildCardParticipant2 := false } : BMatch) := by
          intro hx
          have hx2 : i < ((List.range' 1
              (2 ^ (ceilLog2 t.participants.length - 1))).map (fun position =>
              ({ id := uuid 1 position, round := 1, position := position,
                 participant1 := none, participant2 := none,
                 participant1Score := 0, participant2Score := 0, winner := none,
                 wildCardParticipant1 := false,
                 wildCardParticipant2 := false } : BMatch))).length := by
            rw [List.length_map, List.length_range']
            exact hi
          rw [List.getElem_of_eq hfirst hx, List.getElem_map,
            List.getElem_range']
        rw [hfr_i (by omega)]
        simp [Option.or_none]

def seedP1 : Participant := { id := "s1", name := "P1", gamePoints := 40 }

def seedP2 : Participant := { id := "s2", name := "P2", gamePoints := 30 }

def seedP3 : Participant := { id := "s3", name := "P3", gamePoints := 20 }

def seedP4 : Participant := { id := "s4", name := "P4", gamePoints := 10 }

def seedP5 : Participant := { id := "s5", name := "P5", gamePoints := 5 }

def seededPow2T : Tournament :=
  { id := "t-s4", name := "S4", game := "G", scoringMode := .higher_score,
    scoreLabel := "pts", targetScore := none, seedingMode := .seeded,
    isStarted := false, participants := [seedP3, seedP1, seedP4, seedP2],
    «matches» := [], currentRound := 1, totalRounds := 0,
    finalizedRounds := [], createdAt := 0, updatedAt := 0 }

def seededFiveT : Tournament :=
  { seededPow2T with
    id := "t-s5"
    name := "S5"
    participants := [seedP3, seedP1, seedP4, seedP2, seedP5] }

/-- Counterexample to C6 as stated: with 4 participants (an exact power
of two) in `seeded` mode, round 1 is filled sequentially in ranking
order (top two seeds meet immediately), not by the recursive
seed-position permutation the claim prescribes for every `n ≥ 2`:
the first match's slot 2 holds rank 1's complement-seed only under the
claim, but the code puts rank 1 against rank 2. -/
theorem seeded_power_of_two_counterexample :
    ((assignParticipantsToMatches (fun _ _ => "u") (fun l => l)
        seededPow2T).«matches».filter (fun m => m.round == 1)).map
        (fun m => (m.participant1, m.participant2)) ≠
      (List.range (2 ^ (ceilLog2 seededPow2T.participants.length - 1))).map
        (fun i =>
          (((generateBracketSeedPositions
              (2 ^ ceilLog2 seededPow2T.participants.length))[2 * i]?).bind
            (fun s => (getSeededParticipants seededPow2T.participants)[s]?),
           ((generateBracketSeedPositions
              (2 ^ ceilLog2 seededPow2T.participants.length))[2 * i + 1]?).bind
            (fun s => (getSeededParticipants seededPow2T.participants)[s]?))) := by
  decide

/-- Witness for the amended C6 at 5 participants (`byeCount = 3`): the
permutation branch applies and the top seeds receive the byes. -/
theorem assignParticipants_seeded_spec_witness :
    ((assignParticipantsToMatches (fun _ _ => "u") (fun l => l)
        seededFiveT).«matches».filter (fun m => m.round == 1)).map
        (fun m => (m.participant1, m.participant2)) =
      (if seededFiveT.participants.length <
          2 ^ ceilLog2 seededFiveT.participants.length then
        (List.range (2 ^ (ceilLog2 seededFiveT.participants.length - 1))).map
          (fun i =>
            (((generateBracketSeedPositions
                (2 ^ ceilLog2 seededFiveT.participants.length))[2 * i]?).bind
              (fun s => (getSeededParticipants seededFiveT.participants)[s]?),
             ((generateBracketSeedPositions
                (2 ^ ceilLog2 seededFiveT.participants.length))[2 * i + 1]?).bind
              (fun s => (getSeededParticipants seededFiveT.participants)[s]?)))
      else
        (List.range (2 ^ (ceilLog2 seededFiveT.participants.length - 1))).map
          (fun i =>
            ((getSeededParticipants seededFiveT.participants)[2 * i]?,
             (getSeededParticipants seededFiveT.participants)[2 * i + 1]?))) :=
  (assignParticipants_seeded_spec (fun _ _ => "u") (fun l => l) seededFiveT
    rfl (by decide)).2.2.2

/-! ### C7 and C3: wild-card backfill -/

/-- The fill loop's per-match test: a next-round match with exactly one
occupant and no winner. -/
def isFillTarget (nextRound : Nat) (m : BMatch) : Bool :=
  m.round == nextRound && !m.winner.isSome && isSingleOccupant m

/-- The participants newly written into a previously empty slot,
listed by comparing the matches before and after a backfill pass
position by position. -/
def newWildCardEntries (old new : List BMatch) : List Participant :=
  (old.zip new).filterMap (fun p =>
    if !p.1.participant1.isSome && p.2.participant1.isSome then p.2.participant1
    else if !p.1.participant2.isSome && p.2.participant2.isSome then
      p.2.participant2
    else none)

/-- The ids of the newly placed wild cards. -/
def newWildCardIds (old new : List BMatch) : List String :=
  (newWildCardEntries old new).map (fun p => p.id)

/-- How backfill may change one match: untouched, or (when it is a
single-occupant winnerless next-round match) its empty slot is filled
with some loser of the finalized round and flagged as a wild card. -/
def FillRel (L : List RoundLoser) (nextRound : Nat) (x y : BMatch) : Prop :=
  y = x ∨ (isFillTarget nextRound x = true ∧ ∃ l ∈ L, y = fillSlot x l)

theorem newWildCardEntries_cons_same (m : BMatch) (ms ys : List BMatch) :
    newWildCardEntries (m :: ms) (m :: ys) = newWildCardEntries ms ys := by
  unfold newWildCardEntries
  rw [List.zip_cons_cons, List.filterMap_cons]
  cases hp1 : m.participant1 <;> cases hp2 : m.participant2 <;> simp [hp1, hp2]

theorem newWildCardEntries_cons_filled (m : BMatch) (cand : RoundLoser)
    (ms ys : List BMatch) (hsingle : isSingleOccupant m = true) :
    newWildCardEntries (m :: ms) (fillSlot m cand :: ys) =
      cand.participant :: newWildCardEntries ms ys := by
  unfold newWildCardEntries
  rw [List.zip_cons_cons, List.filterMap_cons]
  unfold isSingleOccupant at hsingle
  rcases Bool.or_eq_true_iff.1 hsingle with h | h
  · rcases Bool.and_eq_true_iff.1 h with ⟨h1, h2⟩
    rcases Option.isSome_iff_exists.1 h1 with ⟨p, hp1⟩
    have hp2 : m.participant2 = none := by
      rcases hm2 : m.participant2 with _ | q
      · rfl
      · rw [hm2] at h2
        simp at h2
    have hfill : fillSlot m cand =
        { m with participant2 := some cand.participant,
                 wildCardParticipant2 := true } := by
      unfold fillSlot
      rw [if_pos (by simp [hp1, hp2])]
    rw [hfill]
    simp [hp1, hp2]
  · rcases Bool.and_eq_true_iff.1 h with ⟨h1, h2⟩
    rcases Option.isSome_iff_exists.1 h2 with ⟨p, hp2⟩
    have hp1 : m.participant1 = none := by
      rcases hm1 : m.participant1 with _ | q
      · rfl
      · rw [hm1] at h1
        simp at h1
    have hfill : fillSlot m cand =
        { m with participant1 := some cand.participant,
                 wildCardParticipant1 := true } := by
      unfold fillSlot
      rw [if_neg (by simp [hp1]), if_pos (by simp [hp1, hp2])]
    rw [hfill]
    simp [hp1, hp2]

theorem find?_unused_split (A B : List RoundLoser)
    (hnd : ((A ++ B).map (fun l => l.participant.id)).Nodup) :
    (A ++ B).find?
        (fun l => !((A.map (fun l => l.participant.id)).contains
          l.participant.id)) = B.head? := by
  induction A with
  | nil =>
    cases B with
    | nil => rfl
    | cons b bs =>
      rw [List.nil_append, List.find?_cons_of_pos _ (by simp)]
      rfl
  | cons a A' ih =>
    have hnd2 : (a.participant.id ::
        (A' ++ B).map (fun l => l.participant.id)).Nodup := by
      have h0 := hnd
      rw [List.cons_append, List.map_cons] at h0
      exact h0
    have hna : a.participant.id ∉ (A' ++ B).map (fun l => l.participant.id) :=
      (List.nodup_cons.1 hnd2).1
    rw [List.cons_append, List.find?_cons_of_neg _ (by simp)]
    rw [find?_ext _ (fun l => !((A'.map (fun l => l.participant.id)).contains
        l.participant.id)) _ ?_]
    · exact ih (List.nodup_cons.1 hnd2).2
    · intro l hl
      have hlid : l.participant.id ∈ (A' ++ B).map (fun l => l.participant.id) :=
        List.mem_map.2 ⟨l, hl, rfl⟩
      have hne : l.participant.id ≠ a.participant.id := by
        intro hcon
        rw [hcon] at hlid
        exact hna hlid
      simp only [List.map_cons, List.contains_cons]
      have : (l.participant.id == a.participant.id) = false := by
        simp [hne]
      rw [this]
      simp

theorem fillLoop_rel (L : List RoundLoser) (nr : Nat) :
    ∀ (ms : List BMatch) (used : List String),
      List.Forall₂ (FillRel L nr) ms (fillLoop L nr ms used).1 ∧
      (∀ s ∈ newWildCardIds ms (fillLoop L nr ms used).1, s ∉ used) ∧
      (newWildCardIds ms (fillLoop L nr ms used).1).Nodup ∧
      (∀ s ∈ newWildCardIds ms (fillLoop L nr ms used).1,
        s ∈ L.map (fun l => l.participant.id)) := by
  intro ms
  induction ms with
  | nil =>
    intro used
    refine ⟨List.Forall₂.nil, ?_, ?_, ?_⟩ <;>
      simp [fillLoop, newWildCardIds, newWildCardEntries]
  | cons m ms ih =>
    intro used
    by_cases ht : (m.round == nr && !m.winner.isSome && isSingleOccupant m) = true
    · have hsingle : isSingleOccupant m = true := by
        rcases Bool.and_eq_true_iff.1 ht with ⟨-, h⟩
        exact h
      cases hfind : L.find? (fun l => !used.contains l.participant.id) with
      | none =>
        have hstep : fillLoop L nr (m :: ms) used =
            (m :: (fillLoop L nr ms used).1, (fillLoop L nr ms used).2.1,
              (fillLoop L nr ms used).2.2) := by
          rw [fillLoop, if_pos ht, hfind]
        rcases ih used with ⟨hrel, hused, hnd, hinL⟩
        rw [hstep]
        refine ⟨List.Forall₂.cons (Or.inl rfl) hrel, ?_, ?_, ?_⟩ <;>
          simp only [newWildCardIds, newWildCardEntries_cons_same]
        · exact hused
        · exact hnd
        · exact hinL
      | some cand =>
        have hcmem : cand ∈ L := List.mem_of_find?_eq_some hfind
        have hcunused : cand.participant.id ∉ used := by
          have := List.find?_some hfind
          simp at this
          exact this
        have hstep : fillLoop L nr (m :: ms) used =
            (fillSlot m cand ::
                (fillLoop L nr ms (used ++ [cand.participant.id])).1,
              (fillLoop L nr ms (used ++ [cand.participant.id])).2.1, true) := by
          rw [fillLoop, if_pos ht, hfind]
        rcases ih (used ++ [cand.participant.id]) with ⟨hrel, hused, hnd, hinL⟩
        rw [hstep]
        refine ⟨List.Forall₂.cons (Or.inr ⟨ht, cand, hcmem, rfl⟩) hrel, ?_, ?_, ?_⟩ <;>
          simp only [newWildCardIds, newWildCardEntries_cons_filled m cand _ _ hsingle,
            List.map_cons]
        · intro s hs
          rcases List.mem_cons.1 hs with rfl | hs
          · exact hcunused
          · have := hused s hs
            intro hcon
            exact this (List.mem_append.2 (Or.inl hcon))
        · refine List.nodup_cons.2 ⟨?_, hnd⟩
          intro hcon
          have := hused cand.participant.id hcon
          exact this (List.mem_append.2 (Or.inr (List.mem_singleton.2 rfl)))
        · intro s hs
          rcases List.mem_cons.1 hs with rfl | hs
          · exact List.mem_map.2 ⟨cand, hcmem, rfl⟩
          · exact hinL s hs
    · have hstep : fillLoop L nr (m :: ms) used =
          (m :: (fillLoop L nr ms used).1, (fillLoop L nr ms used).2.1,
            (fillLoop L nr ms used).2.2) := by
        rw [fillLoop, if_neg ht]
      rcases ih used with ⟨hrel, hused, hnd, hinL⟩
      rw [hstep]
      refine ⟨List.Forall₂.cons (Or.inl rfl) hrel, ?_, ?_, ?_⟩ <;>
        simp only [newWildCardIds, newWildCardEntries_cons_same]
      · exact hused
      · exact hnd
      · exact hinL

theorem fillLoop_front (L : List RoundLoser) (nr : Nat)
    (hnd : (L.map (fun l => l.participant.id)).Nodup) :
    ∀ (ms : List BMatch) (k : Nat),
      newWildCardEntries ms
          (fillLoop L nr ms ((L.take k).map (fun l => l.participant.id))).1 =
        ((L.drop k).map (fun l => l.participant)).take
          (ms.countP (isFillTarget nr)) := by
  intro ms
  induction ms with
  | nil =>
    intro k
    simp [fillLoop, newWildCardEntries]
  | cons m ms ih =>
    intro k
    have hfind : L.find? (fun l =>
        !(((L.take k).map (fun l => l.participant.id)).contains
          l.participant.id)) = L[k]? := by
      have hsplit := find?_unused_split (L.take k) (L.drop k)
        (by rw [List.take_append_drop]; exact hnd)
      rw [List.take_append_drop] at hsplit
      rw [hsplit, List.head?_drop]
    by_cases ht : (m.round == nr && !m.winner.isSome && isSingleOccupant m) = true
    · have hsingle : isSingleOccupant m = true := by
        rcases Bool.and_eq_true_iff.1 ht with ⟨-, h⟩
        exact h
      have hcount : (m :: ms).countP (isFillTarget nr) =
          ms.countP (isFillTarget nr) + 1 := by
        rw [List.countP_cons, if_pos (by exact ht)]
      by_cases hk : k < L.length
      · have hfind2 : L.find? (fun l =>
            !(((L.take k).map (fun l => l.participant.id)).contains
              l.participant.id)) = some (L.get ⟨k, hk⟩) := by
          rw [hfind, List.getElem?_eq_getElem hk]
          rfl
        have hstep : fillLoop L nr (m :: ms)
            ((L.take k).map (fun l => l.participant.id)) =
            (fillSlot m (L.get ⟨k, hk⟩) ::
                (fillLoop L nr ms ((L.take (k + 1)).map
                  (fun l => l.participant.id))).1,
              (fillLoop L nr ms ((L.take (k + 1)).map
                (fun l => l.participant.id))).2.1, true) := by
          rw [fillLoop, if_pos ht, hfind2]
          have hused : (L.take k).map (fun l => l.participant.id) ++
              [(L.get ⟨k, hk⟩).participant.id] =
              (L.take (k + 1)).map (fun l => l.participant.id) := by
            rw [List.take_succ, List.map_append, List.getElem?_eq_getElem hk]
            rfl
          dsimp only
          rw [hused]
        rw [hstep,
          newWildCardEntries_cons_filled m (L.get ⟨k, hk⟩) _ _ hsingle,
          ih (k + 1), hcount]
        rw [List.drop_eq_getElem_cons hk, List.map_cons, List.take_succ_cons]
        rfl
      · have hdrop : L.drop k = [] := List.drop_eq_nil_of_le (by omega)
        have hfind2 : L.find? (fun l =>
            !(((L.take k).map (fun l => l.participant.id)).contains
              l.participant.id)) = none := by
          rw [hfind]
          exact List.getElem?_eq_none (by omega)
        have hstep : fillLoop L nr (m :: ms)
            ((L.take k).map (fun l => l.participant.id)) =
            (m :: (fillLoop L nr ms ((L.take k).map
                (fun l => l.participant.id))).1,
              (fillLoop L nr ms ((L.take k).map
                (fun l => l.participant.id))).2.1,
              (fillLoop L nr ms ((L.take k).map
                (fun l => l.participant.id))).2.2) := by
          rw [fillLoop, if_pos ht, hfind2]
        rw [hstep, newWildCardEntries_cons_same, ih k, hdrop]
        simp
    · have hstep : fillLoop L nr (m :: ms)
          ((L.take k).map (fun l => l.participant.id)) =
          (m :: (fillLoop L nr ms ((L.take k).map
              (fun l => l.participant.id))).1,
            (fillLoop L nr ms ((L.take k).map
              (fun l => l.participant.id))).2.1,
            (fillLoop L nr ms ((L.take k).map
              (fun l => l.participant.id))).2.2) := by
        rw [fillLoop, if_neg ht]
      have hcount : (m :: ms).countP (isFillTarget nr) =
          ms.countP (isFillTarget nr) := by
        rw [List.countP_cons, if_neg (by exact ht)]
        omega
      rw [hstep, newWildCardEntries_cons_same, ih k, hcount]

theorem newWildCardEntries_self (ms : List BMatch) :
    newWildCardEntries ms ms = [] := by
  induction ms with
  | nil => rfl
  | cons m ms ih =>
    rw [newWildCardEntries_cons_same]
    exact ih

theorem fillBye_single_round_matches (t : Tournament) (r : Nat) :
    ((fillByeMatchesWithWildCards t (some r)).1).«matches» =
      (fillRoundOnce t.«matches» r).1 := by
  unfold fillByeMatchesWithWildCards
  simp only [Option.getD_some]
  rw [show r + 1 - r = 1 from by omega, List.range'_one]
  simp

/-- C7: one wild-card backfill pass (the call finalization makes for
round `r`) relates every match to its old value by `FillRel`: matches
are untouched unless they are round-`r+1` matches with exactly one
occupant and no winner, in which case their empty slot is filled (and
flagged) with a loser of round `r`; and the newly placed participants
have pairwise distinct ids, each belonging to the round's loser list. -/
theorem fill_wildcards_spec (t : Tournament) (r : Nat) :
    List.Forall₂ (FillRel (getRoundLosers t.«matches» r) (r + 1))
      t.«matches» ((fillByeMatchesWithWildCards t (some r)).1).«matches» ∧
    (newWildCardIds t.«matches»
      ((fillByeMatchesWithWildCards t (some r)).1).«matches»).Nodup ∧
    (∀ s ∈ newWildCardIds t.«matches»
        ((fillByeMatchesWithWildCards t (some r)).1).«matches»,
      s ∈ (getRoundLosers t.«matches» r).map (fun l => l.participant.id)) := by
  have hm := fillBye_single_round_matches t r
  unfold fillRoundOnce at hm
  have hid : ∀ hmm : ((fillByeMatchesWithWildCards t (some r)).1).«matches» =
      t.«matches»,
      List.Forall₂ (FillRel (getRoundLosers t.«matches» r) (r + 1))
        t.«matches» ((fillByeMatchesWithWildCards t (some r)).1).«matches» ∧
      (newWildCardIds t.«matches»
        ((fillByeMatchesWithWildCards t (some r)).1).«matches»).Nodup ∧
      (∀ s ∈ newWildCardIds t.«matches»
          ((fillByeMatchesWithWildCards t (some r)).1).«matches»,
        s ∈ (getRoundLosers t.«matches» r).map (fun l => l.participant.id)) := by
    intro hmm
    rw [hmm]
    refine ⟨List.forall₂_same.2 (fun x _ => Or.inl rfl), ?_, ?_⟩ <;>
      simp [newWildCardIds, newWildCardEntries_self]
  by_cases hact : ((t.«matches».filter (fun m => m.round == r)).filter
      (fun m => m.participant1.isSome || m.participant2.isSome)).isEmpty = true
  · rw [if_pos hact] at hm
    exact hid hm
  · rw [if_neg hact] at hm
    by_cases hcomp : isRoundComplete t.«matches» r = true
    · rw [if_neg (by simp [hcomp])] at hm
      rcases fillLoop_rel (getRoundLosers t.«matches» r) (r + 1) t.«matches» []
        with ⟨hrel, _, hnd, hinL⟩
      rw [hm]
      exact ⟨hrel, hnd, hinL⟩
    · rw [if_pos (by simp [Bool.not_eq_true] at hcomp; simp [hcomp])] at hm
      exact hid hm

theorem loserBefore_trans (a b c : RoundLoser) (hab : loserBefore a b = true)
    (hbc : loserBefore b c = true) : loserBefore a c = true := by
  unfold loserBefore at hab hbc ⊢
  split_ifs at hab hbc ⊢ with h1 h2 h3 <;>
    simp only [decide_eq_true_eq] at * <;>
    first
      | omega
      | exact le_trans hab hbc

theorem loserBefore_total (a b : RoundLoser) :
    loserBefore a b || loserBefore b a := by
  unfold loserBefore
  by_cases h : a.score = b.score
  · rw [if_neg (by omega), if_neg (by omega)]
    rcases le_total a.participant.name b.participant.name with hle | hle
    · simp [hle]
    · simp [hle]
  · by_cases h2 : b.score < a.score
    · rw [if_pos (by omega)]
      simp [h2]
    · rw [if_pos (by omega), if_pos (by omega)]
      have : a.score < b.score := by omega
      simp [this]

/-- C3 amended: the losers of round `r`'s two-occupant decided matches
are sorted by score descending in EVERY scoring mode (the sort does not
consult the scoring mode; there is no ascending order for
`lower_score`), ties broken by participant name ascending; and when the
round is active and complete and the loser ids are distinct, backfill
fills the single-occupant next-round matches from the front of that
ordering, one loser per match in match order. -/
theorem getRoundLosers_order_and_backfill (t : Tournament) (r : Nat)
    (hnd : ((getRoundLosers t.«matches» r).map
      (fun l => l.participant.id)).Nodup)
    (hact : ((t.«matches».filter (fun m => m.round == r)).filter
      (fun m => m.participant1.isSome || m.participant2.isSome)).isEmpty = false)
    (hcomp : isRoundComplete t.«matches» r = true) :
    List.Pairwise (fun a b => b.score < a.score ∨
        (a.score = b.score ∧ a.participant.name ≤ b.participant.name))
      (getRoundLosers t.«matches» r) ∧
    (getRoundLosers t.«matches» r).Perm
      (t.«matches».filterMap (fun m =>
        match m.participant1, m.participant2, m.winner with
        | some p1, some p2, some w =>
          if m.round = r then
            some
              (if w.id = p1.id then
                { participant := p2, score := m.participant2Score,
                  matchId := m.id }
              else
                { participant := p1, score := m.participant1Score,
                  matchId := m.id })
          else none
        | _, _, _ => none)) ∧
    newWildCardEntries t.«matches»
        ((fillByeMatchesWithWildCards t (some r)).1).«matches» =
      ((getRoundLosers t.«matches» r).map (fun l => l.participant)).take
        (t.«matches».countP (isFillTarget (r + 1))) := by
  refine ⟨?_, ?_, ?_⟩
  · have hsort := sortBy_pairwise loserBefore loserBefore_trans
      loserBefore_total (t.«matches».filterMap (fun m =>
        match m.participant1, m.participant2, m.winner with
        | some p1, some p2, some w =>
          if m.round = r then
            some
              (if w.id = p1.id then
                { participant := p2, score := m.participant2Score,
                  matchId := m.id }
              else
                { participant := p1, score := m.participant1Score,
                  matchId := m.id })
          else none
        | _, _, _ => none))
    refine List.Pairwise.imp ?_ hsort
    intro a b hab
    unfold loserBefore at hab
    by_cases h : a.score = b.score
    · rw [if_neg (by omega)] at hab
      exact Or.inr ⟨h, of_decide_eq_true hab⟩
    · rw [if_pos (by omega)] at hab
      exact Or.inl (of_decide_eq_true hab)
  · exact sortBy_perm loserBefore _
  · have hm := fillBye_single_round_matches t r
    unfold fillRoundOnce at hm
    rw [if_neg (by rw [hact]; simp), if_neg (by simp [hcomp])] at hm
    rw [hm]
    have := fillLoop_front (getRoundLosers t.«matches» r) (r + 1) hnd
      t.«matches» 0
    simpa using this

def mkM (idStr : String) (r p : Nat) (p1 p2 : Option Participant)
    (s1 s2 : Nat) (w : Option Participant) : BMatch :=
  { id := idStr, round := r, position := p, participant1 := p1,
    participant2 := p2, participant1Score := s1, participant2Score := s2,
    winner := w, wildCardParticipant1 := false, wildCardParticipant2 := false }

def partA : Participant := { id := "pa", name := "Al", gamePoints := 0 }

def partB : Participant := { id := "pb", name := "Bo", gamePoints := 0 }

def partC : Participant := { id := "pc", name := "Cy", gamePoints := 0 }

def partD : Participant := { id := "pd", name := "Di", gamePoints := 0 }

def lowerFillT : Tournament :=
  { id := "t-lf", name := "LF", game := "G", scoringMode := .lower_score,
    scoreLabel := "pos", targetScore := none, seedingMode := .random,
    isStarted := true, participants := [partA, partB, partC, partD],
    «matches» :=
      [mkM "m1" 1 1 (some partA) (some partB) 10 8 (some partB),
       mkM "m2" 1 2 (some partC) (some partD) 9 3 (some partD),
       mkM "m3" 2 1 (some partB) none 0 0 none],
    currentRound := 1, totalRounds := 2, finalizedRounds := [],
    createdAt := 0, updatedAt := 0 }

/-- Counterexample to C3 as stated: in `lower_score` mode the losers are
NOT sorted ascending — round 1's losers (Al with score 10, Cy with
score 9) come out sorted by score descending, and the backfill places
the score-10 loser Al, whereas the claim's ascending ordering for
`lower_score` would put the score-9 loser Cy at the front. -/
theorem lower_score_backfill_counterexample :
    lowerFillT.scoringMode = ScoringMode.lower_score ∧
    getRoundLosers lowerFillT.«matches» 1 =
      [{ participant := partA, score := 10, matchId := "m1" },
       { participant := partC, score := 9, matchId := "m2" }] ∧
    newWildCardEntries lowerFillT.«matches»
      ((fillByeMatchesWithWildCards lowerFillT (some 1)).1).«matches» =
      [partA] ∧
    partA ≠ partC := by
  decide

/-- Witness for the amended C3 on a concrete lower_score tournament. -/
theorem getRoundLosers_order_and_backfill_witness :
    newWildCardEntries lowerFillT.«matches»
        ((fillByeMatchesWithWildCards lowerFillT (some 1)).1).«matches» =
      ((getRoundLosers lowerFillT.«matches» 1).map (fun l => l.participant)).take
        (lowerFillT.«matches».countP (isFillTarget 2)) :=
  (getRoundLosers_order_and_backfill lowerFillT 1 (by decide) (by decide)
    (by decide)).2.2

/-! ### C2: idempotence of round finalization -/

/-- Relation between a match and its value after a stage that only ever
rewrites round-`r` matches, and only their slots and wild-card flags:
id, round, position, winner and scores survive, and matches outside
round `r` are untouched. -/
def SlotOnlyRel (r : Nat) (x y : BMatch) : Prop :=
  y.id = x.id ∧ y.round = x.round ∧ y.position = x.position ∧
    y.winner = x.winner ∧ y.participant1Score = x.participant1Score ∧
    y.participant2Score = x.participant2Score ∧ (x.round ≠ r → y = x)

/-- Relation between a match and its value after a stage that only ever
rewrites round-`r` matches (of any field except id/round/position). -/
def OutsideEq (r : Nat) (x y : BMatch) : Prop :=
  y.id = x.id ∧ y.round = x.round ∧ y.position = x.position ∧
    (x.round ≠ r → y = x)

theorem SlotOnlyRel.toOutsideEq {r : Nat} {x y : BMatch}
    (h : SlotOnlyRel r x y) : OutsideEq r x y :=
  ⟨h.1, h.2.1, h.2.2.1, h.2.2.2.2.2.2⟩

theorem SlotOnlyRel.refl {r : Nat} (x : BMatch) : SlotOnlyRel r x x :=
  ⟨Eq.refl _, Eq.refl _, Eq.refl _, Eq.refl _, Eq.refl _, Eq.refl _,
    fun _ => Eq.refl _⟩

theorem SlotOnlyRel.slotChain {r : Nat} {x y z : BMatch} (h1 : SlotOnlyRel r x y)
    (h2 : SlotOnlyRel r y z) : SlotOnlyRel r x z := by
  refine ⟨h2.1.trans h1.1, h2.2.1.trans h1.2.1, h2.2.2.1.trans h1.2.2.1,
    h2.2.2.2.1.trans h1.2.2.2.1, h2.2.2.2.2.1.trans h1.2.2.2.2.1,
    h2.2.2.2.2.2.1.trans h1.2.2.2.2.2.1, ?_⟩
  intro hne
  have hxy := h1.2.2.2.2.2.2 hne
  have hyne : y.round ≠ r := by
    rw [h1.2.1]
    exact hne
  rw [h2.2.2.2.2.2.2 hyne, hxy]

theorem OutsideEq.outsideChain {r : Nat} {x y z : BMatch} (h1 : OutsideEq r x y)
    (h2 : OutsideEq r y z) : OutsideEq r x z := by
  refine ⟨h2.1.trans h1.1, h2.2.1.trans h1.2.1, h2.2.2.1.trans h1.2.2.1, ?_⟩
  intro hne
  have hxy := h1.2.2.2 hne
  have hyne : y.round ≠ r := by
    rw [h1.2.1]
    exact hne
  rw [h2.2.2.2 hyne, hxy]

theorem forall₂_trans {α : Type _} {R : α → α → Prop}
    (h : ∀ a b c, R a b → R b c → R a c) :
    ∀ {X Y Z : List α}, List.Forall₂ R X Y → List.Forall₂ R Y Z →
      List.Forall₂ R X Z := by
  intro X Y Z h1
  induction h1 generalizing Z with
  | nil =>
    intro h2
    cases h2
    exact List.Forall₂.nil
  | cons hab h1' ih =>
    intro h2
    cases h2 with
    | cons hbc h2' => exact List.Forall₂.cons (h _ _ _ hab hbc) (ih h2')

theorem forall₂_slot_map (r : Nat) (f : BMatch → BMatch)
    (hf : ∀ m, (f m).id = m.id ∧ (f m).round = m.round ∧
      (f m).position = m.position ∧ (f m).winner = m.winner ∧
      (f m).participant1Score = m.participant1Score ∧
      (f m).participant2Score = m.participant2Score)
    (hout : ∀ m, m.round ≠ r → f m = m) (ms : List BMatch) :
    List.Forall₂ (SlotOnlyRel r) ms (ms.map f) := by
  induction ms with
  | nil => exact List.Forall₂.nil
  | cons m ms ih =>
    refine List.Forall₂.cons ?_ ih
    rcases hf m with ⟨a, b, c, d, e, g⟩
    exact ⟨a, b, c, d, e, g, hout m⟩

theorem forall₂_outside_map (r : Nat) (f : BMatch → BMatch)
    (hf : ∀ m, (f m).id = m.id ∧ (f m).round = m.round ∧
      (f m).position = m.position)
    (hout : ∀ m, m.round ≠ r → f m = m) (ms : List BMatch) :
    List.Forall₂ (OutsideEq r) ms (ms.map f) := by
  induction ms with
  | nil => exact List.Forall₂.nil
  | cons m ms ih =>
    refine List.Forall₂.cons ?_ ih
    rcases hf m with ⟨a, b, c⟩
    exact ⟨a, b, c, hout m⟩

theorem forall₂_slot_refl (r : Nat) (X : List BMatch) :
    List.Forall₂ (SlotOnlyRel r) X X :=
  List.forall₂_same.2 (fun x _ => SlotOnlyRel.refl x)

theorem slotOnlyRel_trans_fn (r : Nat) :
    ∀ a b c : BMatch, SlotOnlyRel r a b → SlotOnlyRel r b c →
      SlotOnlyRel r a c :=
  fun _ _ _ hab hbc => SlotOnlyRel.slotChain hab hbc

theorem forall₂_slot_updateFirst (r : Nat) (p : BMatch → Bool)
    (f : BMatch → BMatch) (hp : ∀ m, p m = true → m.round = r)
    (hf : ∀ m, (f m).id = m.id ∧ (f m).round = m.round ∧
      (f m).position = m.position ∧ (f m).winner = m.winner ∧
      (f m).participant1Score = m.participant1Score ∧
      (f m).participant2Score = m.participant2Score)
    (ms : List BMatch) :
    List.Forall₂ (SlotOnlyRel r) ms (updateFirst p f ms) := by
  induction ms with
  | nil => exact List.Forall₂.nil
  | cons m ms ih =>
    unfold updateFirst
    by_cases hpm : p m = true
    · rw [if_pos hpm]
      refine List.Forall₂.cons ?_ (forall₂_slot_refl r ms)
      rcases hf m with ⟨a, b, c, d, e, g⟩
      exact ⟨a, b, c, d, e, g, fun hne => absurd (hp m hpm) hne⟩
    · rw [if_neg hpm]
      exact List.Forall₂.cons (SlotOnlyRel.refl m) ih

theorem forall₂_slot_advanceWinner (r : Nat) (ms : List BMatch) (m : BMatch)
    (tot : Nat) (hm : m.round = r) :
    List.Forall₂ (SlotOnlyRel (r + 1)) ms
      (advanceWinnerToNextRound ms m tot) := by
  unfold advanceWinnerToNextRound
  by_cases hg : m.winner = none ∨ tot ≤ m.round
  · rw [if_pos hg]
    exact forall₂_slot_refl (r + 1) ms
  · rw [if_neg hg]
    refine forall₂_slot_updateFirst (r + 1) _ _ ?_ ?_ ms
    · intro nm hnm
      rcases Bool.and_eq_true_iff.1 hnm with ⟨h1, -⟩
      have := eq_of_beq h1
      omega
    · intro nm
      by_cases hpar : m.position % 2 = 1
      · rw [if_pos hpar]
        exact ⟨rfl, rfl, rfl, rfl, rfl, rfl⟩
      · rw [if_neg hpar]
        exact ⟨rfl, rfl, rfl, rfl, rfl, rfl⟩

theorem forall₂_rel_foldl {γ β : Type _} {R : γ → γ → Prop}
    (htrans : ∀ a b c, R a b → R b c → R a c)
    (hrefl : ∀ X : List γ, List.Forall₂ R X X)
    (step : List γ → β → List γ) :
    ∀ (l : List β) (init : List γ),
      (∀ acc x, x ∈ l → List.Forall₂ R acc (step acc x)) →
      List.Forall₂ R init (l.foldl step init) := by
  intro l
  induction l with
  | nil =>
    intro init _
    exact hrefl init
  | cons x xs ih =>
    intro init hstep
    rw [List.foldl_cons]
    refine forall₂_trans htrans (hstep init x (List.mem_cons_self x xs)) ?_
    exact ih (step init x) (fun acc y hy => hstep acc y
      (List.mem_cons_of_mem x hy))

theorem forall₂_slot_advanceRound (r tot : Nat) (ms : List BMatch) :
    List.Forall₂ (SlotOnlyRel (r + 1)) ms
      (advanceRoundWinnersMatches ms r tot) := by
  unfold advanceRoundWinnersMatches
  refine forall₂_rel_foldl (slotOnlyRel_trans_fn (r + 1))
    (forall₂_slot_refl (r + 1)) _ _ ms ?_
  intro acc m hm
  by_cases hc : (m.winner.isSome && m.participant1.isSome &&
      m.participant2.isSome) = true
  · rw [if_pos hc]
    have hmr : m.round = r := by
      have := (List.mem_filter.1 hm).2
      exact eq_of_beq this
    exact forall₂_slot_advanceWinner r acc m tot hmr
  · rw [if_neg hc]
    exact forall₂_slot_refl (r + 1) acc

theorem processRoundByes_id (ms : List BMatch) (r tot : Nat)
    (h : ∀ m ∈ ms, m.round = r → m.winner = none →
      isSingleOccupant m = false) :
    processRoundByes ms r tot = ms := by
  unfold processRoundByes
  refine foldl_fixed _ ms _ ?_
  intro i _
  cases hget : ms[i]? with
  | none => rfl
  | some m =>
    have hmem : m ∈ ms := List.getElem?_mem hget
    have hcond : (m.round == r && !m.winner.isSome && isSingleOccupant m) =
        false := by
      by_cases h1 : m.round = r
      · by_cases h2 : m.winner = none
        · rw [h m hmem h1 h2]
          simp
        · have : m.winner.isSome = true := by
            rcases hw : m.winner with _ | w
            · exact absurd hw h2
            · rfl
          simp [this]
      · have : (m.round == r) = false := by
          simp [h1]
        simp [this]
    simp only [hcond]
    simp

theorem forall₂_outside_clearNext (r : Nat) (ms : List BMatch) :
    List.Forall₂ (OutsideEq r) ms (clearNextRoundAssignments ms r) := by
  unfold clearNextRoundAssignments
  refine forall₂_outside_map r _ ?_ ?_ ms
  · intro m
    by_cases hc : (m.round == r) = true
    · rw [if_pos hc]
      exact ⟨rfl, rfl, rfl⟩
    · rw [if_neg hc]
      exact ⟨rfl, rfl, rfl⟩
  · intro m hm
    rw [if_neg (by simp [hm])]

theorem forall₂_slot_clearWildCards (r : Nat) (ms : List BMatch) :
    List.Forall₂ (SlotOnlyRel r) ms (clearWildCardsForRound ms r) := by
  unfold clearWildCardsForRound
  refine forall₂_slot_map r _ ?_ ?_ ms
  · intro m
    by_cases hc : (m.round == r && !m.winner.isSome) = true
    · rw [if_pos hc]
      by_cases h1 : m.wildCardParticipant1 = true
      · rw [if_pos h1]
        by_cases h2 : m.wildCardParticipant2 = true <;> simp [h1, h2]
      · rw [if_neg h1]
        by_cases h2 : m.wildCardParticipant2 = true <;> simp [h1, h2]
    · rw [if_neg hc]
      exact ⟨rfl, rfl, rfl, rfl, rfl, rfl⟩
  · intro m hm
    rw [if_neg (by simp [hm])]

theorem fillSlot_skeleton (m : BMatch) (cand : RoundLoser) :
    (fillSlot m cand).id = m.id ∧ (fillSlot m cand).round = m.round ∧
      (fillSlot m cand).position = m.position ∧
      (fillSlot m cand).winner = m.winner ∧
      (fillSlot m cand).participant1Score = m.participant1Score ∧
      (fillSlot m cand).participant2Score = m.participant2Score := by
  unfold fillSlot
  by_cases h1 : (m.participant1.isSome && !m.participant2.isSome) = true
  · rw [if_pos h1]
    exact ⟨rfl, rfl, rfl, rfl, rfl, rfl⟩
  · rw [if_neg h1]
    by_cases h2 : (!m.participant1.isSome && m.participant2.isSome) = true
    · rw [if_pos h2]
      exact ⟨rfl, rfl, rfl, rfl, rfl, rfl⟩
    · rw [if_neg h2]
      exact ⟨rfl, rfl, rfl, rfl, rfl, rfl⟩

theorem fillRel_slotOnly {L : List RoundLoser} {r : Nat} {x y : BMatch}
    (h : FillRel L r x y) : SlotOnlyRel r x y := by
  rcases h with rfl | ⟨ht, l, _, rfl⟩
  · exact SlotOnlyRel.refl _
  · rcases fillSlot_skeleton x l with ⟨a, b, c, d, e, g⟩
    refine ⟨a, b, c, d, e, g, ?_⟩
    intro hne
    rcases Bool.and_eq_true_iff.1 ht with ⟨h1, -⟩
    rcases Bool.and_eq_true_iff.1 h1 with ⟨h2, -⟩
    exact absurd (eq_of_beq h2) hne

theorem forall₂_slot_fillRoundOnce (ms : List BMatch) (r : Nat) :
    List.Forall₂ (SlotOnlyRel (r + 1)) ms (fillRoundOnce ms r).1 := by
  unfold fillRoundOnce
  by_cases hact : ((ms.filter (fun m => m.round == r)).filter
      (fun m => m.participant1.isSome || m.participant2.isSome)).isEmpty = true
  · rw [if_pos hact]
    exact forall₂_slot_refl (r + 1) ms
  · rw [if_neg hact]
    by_cases hcomp : (!isRoundComplete ms r) = true
    · rw [if_pos hcomp]
      exact forall₂_slot_refl (r + 1) ms
    · rw [if_neg hcomp]
      have := (fillLoop_rel (getRoundLosers ms r) (r + 1) ms []).1
      exact this.imp (fun a b hab => fillRel_slotOnly hab)

/-- After a stage, every round-`r` match still has no winner and zero
scores. -/
def CleanRound (r : Nat) (ms : List BMatch) : Prop :=
  ∀ m ∈ ms, m.round = r → m.winner = none ∧ m.participant1Score = 0 ∧
    m.participant2Score = 0

theorem cleanRound_clearNext (ms : List BMatch) (r : Nat) :
    CleanRound r (clearNextRoundAssignments ms r) := by
  intro m hm hr
  unfold clearNextRoundAssignments at hm
  rcases List.mem_map.1 hm with ⟨x, _, rfl⟩
  by_cases hc : (x.round == r) = true
  · rw [if_pos hc]
    exact ⟨rfl, rfl, rfl⟩
  · rw [if_neg hc] at hr ⊢
    exact absurd hr (by simpa using hc)

theorem cleanRound_of_forall₂ {r : Nat} {X Y : List BMatch}
    (h : List.Forall₂ (SlotOnlyRel r) X Y) (hX : CleanRound r X) :
    CleanRound r Y := by
  intro m hm hr
  rcases List.mem_iff_getElem.1 hm with ⟨i, hi, rfl⟩
  rcases List.forall₂_iff_get.1 h with ⟨hlen, hget⟩
  have hrel := hget i (by omega) (by omega)
  rcases hrel with ⟨-, hround, -, hw, hs1, hs2, -⟩
  have hXi := hX (X.get ⟨i, by omega⟩) (List.get_mem X i (by omega)) (by
    rw [← hround]
    exact hr)
  refine ⟨?_, ?_, ?_⟩
  · rw [show Y[i] = Y.get ⟨i, by omega⟩ from rfl] at hw ⊢
    rw [hw, hXi.1]
  · rw [show Y[i] = Y.get ⟨i, by omega⟩ from rfl] at hs1 ⊢
    rw [hs1, hXi.2.1]
  · rw [show Y[i] = Y.get ⟨i, by omega⟩ from rfl] at hs2 ⊢
    rw [hs2, hXi.2.2]

theorem filter_round_congr {r' : Nat} {X Y : List BMatch}
    (h : List.Forall₂ (OutsideEq r') X Y) (s : Nat) (hs : s ≠ r') :
    X.filter (fun m => m.round == s) = Y.filter (fun m => m.round == s) := by
  induction h with
  | nil => rfl
  | cons hxy hrest ih =>
    rename_i x y X' Y'
    rcases hxy with ⟨-, hround, -, hout⟩
    by_cases hxr : x.round = s
    · have hyx : y = x := hout (by omega)
      subst hyx
      simp only [List.filter_cons]
      rw [ih]
    · have : (x.round == s) = false := by simp [hxr]
      have hy : (y.round == s) = false := by
        rw [hround]
        exact this
      simp only [List.filter_cons, this, hy]
      exact ih

theorem isRoundComplete_congr {X Y : List BMatch} (s : Nat)
    (h : X.filter (fun m => m.round == s) = Y.filter (fun m => m.round == s)) :
    isRoundComplete X s = isRoundComplete Y s := by
  unfold isRoundComplete
  rw [h]

theorem hasNextRoundScores_eq_false_of_clean {r : Nat} {ms : List BMatch}
    (h : CleanRound (r + 1) ms) : hasNextRoundScores ms r = false := by
  unfold hasNextRoundScores
  rw [List.any_eq_false]
  intro m hm
  rcases List.mem_filter.1 hm with ⟨hms, hround⟩
  rcases h m hms (by simpa using hround) with ⟨hw, h1, h2⟩
  simp [hw, h1, h2]

theorem clearNext_congr {r' : Nat} {X Y : List BMatch}
    (h : List.Forall₂ (OutsideEq r') X Y) :
    clearNextRoundAssignments X r' = clearNextRoundAssignments Y r' := by
  unfold clearNextRoundAssignments
  induction h with
  | nil => rfl
  | cons hxy hrest ih =>
    rename_i x y X' Y'
    rcases hxy with ⟨hid, hround, hpos, hout⟩
    simp only [List.map_cons]
    rw [ih]
    congr 1
    by_cases hxr : x.round = r'
    · rw [if_pos (by simp [hxr]), if_pos (by simp [hround, hxr])]
      rw [hid, hround, hpos]
    · have hyx : y = x := hout hxr
      rw [hyx]

/-- The full tournament-level form of a single-round backfill call. -/
theorem fillBye_single_round (t : Tournament) (r : Nat) :
    (fillByeMatchesWithWildCards t (some r)).1 =
      { t with «matches» := (fillRoundOnce t.«matches» r).1 } := by
  unfold fillByeMatchesWithWildCards
  simp only [Option.getD_some]
  rw [show r + 1 - r = 1 from by omega, List.range'_one]
  simp

/-- The matches-level composite that `finalizeRoundIfComplete` runs on a
non-final round: clear next round, advance winners, resolve byes, clear
next-round wild cards, backfill. -/
def pipeMatches (ms : List BMatch) (round totalRounds : Nat) : List BMatch :=
  (fillRoundOnce
    (clearWildCardsForRound
      (processRoundByes
        (advanceRoundWinnersMatches
          (clearNextRoundAssignments ms (round + 1)) round totalRounds)
        round totalRounds)
      (round + 1))
    round).1

/-- The boolean condition of `updateCurrentRound`, as a function of the
data it reads. -/
def updateCond (ms : List BMatch) (currentRound totalRounds round : Nat) :
    Bool :=
  let roundMatches := ms.filter (fun m => m.round == round)
  let activeMatches :=
    roundMatches.filter (fun m => m.participant1.isSome || m.participant2.isSome)
  (!activeMatches.isEmpty && activeMatches.all (fun m => m.winner.isSome)) &&
    currentRound == round && decide (round < totalRounds)

theorem updateCurrentRound_eq (u : Tournament) (r : Nat) :
    updateCurrentRound u r =
      if updateCond u.«matches» u.currentRound u.totalRounds r then
        { u with currentRound := u.currentRound + 1 }
      else u := rfl

theorem finalizeRound_eq (t : Tournament) (round : Nat)
    (hcf : canFinalizeRound t round = true) (hlt : round < t.totalRounds) :
    finalizeRoundIfComplete t round =
      (if round ∈ (updateCurrentRound
          { t with «matches» := pipeMatches t.«matches» round t.totalRounds }
          round).finalizedRounds then
        updateCurrentRound
          { t with «matches» := pipeMatches t.«matches» round t.totalRounds }
          round
      else
        { updateCurrentRound
            { t with «matches» := pipeMatches t.«matches» round t.totalRounds }
            round with
          finalizedRounds := (updateCurrentRound
            { t with «matches» := pipeMatches t.«matches» round t.totalRounds }
            round).finalizedRounds ++ [round] },
        true) := by
  rw [finalizeRoundIfComplete]
  rw [if_neg (by simp [hcf])]
  dsimp only
  rw [if_pos hlt, fillBye_single_round]
  rfl

theorem outsideEq_trans_fn (r : Nat) :
    ∀ a b c : BMatch, OutsideEq r a b → OutsideEq r b c → OutsideEq r a c :=
  fun _ _ _ hab hbc => OutsideEq.outsideChain hab hbc

theorem forall₂_outside_mem_of_ne {r' : Nat} {X Y : List BMatch}
    (h : List.Forall₂ (OutsideEq r') X Y) :
    ∀ m ∈ Y, m.round ≠ r' → m ∈ X := by
  intro m hm hne
  rcases List.mem_iff_getElem.1 hm with ⟨i, hi, rfl⟩
  rcases List.forall₂_iff_get.1 h with ⟨hlen, hget⟩
  have hrel := hget i (by omega) (by omega)
  rcases hrel with ⟨-, hround, -, hout⟩
  have hxne : (X.get ⟨i, by omega⟩).round ≠ r' := by
    rw [← hround]
    exact hne
  have : Y.get ⟨i, by omega⟩ = X.get ⟨i, by omega⟩ := hout hxne
  rw [show Y[i] = Y.get ⟨i, by omega⟩ from rfl, this]
  exact List.get_mem X _ _

theorem updateCond_cr_ne (ms : List BMatch) (cr tot r : Nat) (h : cr ≠ r) :
    updateCond ms cr tot r = false := by
  unfold updateCond
  have : (cr == r) = false := by simp [h]
  simp [this]

theorem finalize_again (u : Tournament) (round : Nat)
    (hcfu : canFinalizeRound u round = true) (hltu : round < u.totalRounds)
    (hpipeu : pipeMatches u.«matches» round u.totalRounds = u.«matches»)
    (hcru : updateCond u.«matches» u.currentRound u.totalRounds round = false)
    (hmemu : round ∈ u.finalizedRounds) :
    finalizeRoundIfComplete u round = (u, true) := by
  rw [finalizeRound_eq u round hcfu hltu, updateCurrentRound_eq]
  dsimp only
  rw [hpipeu, hcru]
  simp only [Bool.false_eq_true, if_false]
  rw [if_pos hmemu]

/-- C2 amended: round finalization is idempotent provided round `round`
holds no unresolved bye (no single-occupant match without a winner) when
`round < totalRounds`; repeating `finalizeRoundIfComplete` then returns
the same tournament and the same boolean. With an unresolved bye the
second call rebuilds round `round + 1` without re-advancing the bye
winner (see the counterexample), which is what the hypothesis rules
out. -/
theorem finalizeRound_idempotent (t : Tournament) (round : Nat)
    (hb : round < t.totalRounds → ∀ m ∈ t.«matches», m.round = round →
      m.winner = none → isSingleOccupant m = false) :
    finalizeRoundIfComplete (finalizeRoundIfComplete t round).1 round =
      finalizeRoundIfComplete t round := by
  by_cases hcf : canFinalizeRound t round = true
  · by_cases hlt : round < t.totalRounds
    · -- main case: a finalizable non-final round without unresolved byes
      have hbye := hb hlt
      have hc1 : ¬ t.totalRounds < round := by
        intro hcon
        rw [canFinalizeRound, if_pos hcon] at hcf
        exact absurd hcf (by simp)
      have hc2 : isRoundComplete t.«matches» round = true := by
        cases hx : isRoundComplete t.«matches» round with
        | true => rfl
        | false =>
          rw [canFinalizeRound, if_neg hc1, if_pos (by simp [hx])] at hcf
          exact absurd hcf (by simp)
      -- the pipeline stages and their relations to the original matches
      have hA1 : List.Forall₂ (OutsideEq (round + 1)) t.«matches»
          (clearNextRoundAssignments t.«matches» (round + 1)) :=
        forall₂_outside_clearNext _ _
      have hA2 : List.Forall₂ (SlotOnlyRel (round + 1))
          (clearNextRoundAssignments t.«matches» (round + 1))
          (advanceRoundWinnersMatches
            (clearNextRoundAssignments t.«matches» (round + 1)) round
            t.totalRounds) :=
        forall₂_slot_advanceRound round t.totalRounds _
      have hA12 : List.Forall₂ (OutsideEq (round + 1)) t.«matches»
          (advanceRoundWinnersMatches
            (clearNextRoundAssignments t.«matches» (round + 1)) round
            t.totalRounds) :=
        forall₂_trans (outsideEq_trans_fn (round + 1)) hA1
          (hA2.imp (fun a b hab => hab.toOutsideEq))
      have hm3 : processRoundByes
          (advanceRoundWinnersMatches
            (clearNextRoundAssignments t.«matches» (round + 1)) round
            t.totalRounds) round t.totalRounds =
          advanceRoundWinnersMatches
            (clearNextRoundAssignments t.«matches» (round + 1)) round
            t.totalRounds := by
        refine processRoundByes_id _ _ _ ?_
        intro m hm hr hw
        have hmem0 : m ∈ t.«matches» :=
          forall₂_outside_mem_of_ne hA12 m hm (by omega)
        exact hbye m hmem0 hr hw
      have hA4 : List.Forall₂ (SlotOnlyRel (round + 1))
          (advanceRoundWinnersMatches
            (clearNextRoundAssignments t.«matches» (round + 1)) round
            t.totalRounds)
          (clearWildCardsForRound
            (advanceRoundWinnersMatches
              (clearNextRoundAssignments t.«matches» (round + 1)) round
              t.totalRounds) (round + 1)) :=
        forall₂_slot_clearWildCards _ _
      have hA5 : List.Forall₂ (SlotOnlyRel (round + 1))
          (clearWildCardsForRound
            (advanceRoundWinnersMatches
              (clearNextRoundAssignments t.«matches» (round + 1)) round
              t.totalRounds) (round + 1))
          (fillRoundOnce
            (clearWildCardsForRound
              (advanceRoundWinnersMatches
                (clearNextRoundAssignments t.«matches» (round + 1)) round
                t.totalRounds) (round + 1)) round).1 :=
        forall₂_slot_fillRoundOnce _ round
      have hms5 : pipeMatches t.«matches» round t.totalRounds =
          (fillRoundOnce
            (clearWildCardsForRound
              (advanceRoundWinnersMatches
                (clearNextRoundAssignments t.«matches» (round + 1)) round
                t.totalRounds) (round + 1)) round).1 := by
        unfold pipeMatches
        rw [hm3]
      have hA : List.Forall₂ (OutsideEq (round + 1)) t.«matches»
          (pipeMatches t.«matches» round t.totalRounds) := by
        rw [hms5]
        refine forall₂_trans (outsideEq_trans_fn (round + 1)) hA12 ?_
        refine forall₂_trans (outsideEq_trans_fn (round + 1))
          (hA4.imp (fun a b hab => hab.toOutsideEq))
          (hA5.imp (fun a b hab => hab.toOutsideEq))
      have hclean : CleanRound (round + 1)
          (pipeMatches t.«matches» round t.totalRounds) := by
        rw [hms5]
        refine cleanRound_of_forall₂ hA5 ?_
        refine cleanRound_of_forall₂ hA4 ?_
        refine cleanRound_of_forall₂ hA2 ?_
        exact cleanRound_clearNext _ _
      have hpipe : pipeMatches (pipeMatches t.«matches» round t.totalRounds)
          round t.totalRounds = pipeMatches t.«matches» round t.totalRounds := by
        have hc := clearNext_congr hA
        show (fillRoundOnce
            (clearWildCardsForRound
              (processRoundByes
                (advanceRoundWinnersMatches
                  (clearNextRoundAssignments
                    (pipeMatches t.«matches» round t.totalRounds) (round + 1))
                  round t.totalRounds)
                round t.totalRounds)
              (round + 1))
            round).1 = pipeMatches t.«matches» round t.totalRounds
        rw [← hc]
        rfl
      have hcfR : ∀ u : Tournament,
          u.«matches» = pipeMatches t.«matches» round t.totalRounds →
          u.totalRounds = t.totalRounds → canFinalizeRound u round = true := by
        intro u hm ht
        have hcomp5 : isRoundComplete
            (pipeMatches t.«matches» round t.totalRounds) round = true := by
          rw [← isRoundComplete_congr round
            (filter_round_congr hA round (by omega))]
          exact hc2
        have hns5 : hasNextRoundScores
            (pipeMatches t.«matches» round t.totalRounds) round = false :=
          hasNextRoundScores_eq_false_of_clean hclean
        rw [canFinalizeRound, hm, ht]
        rw [if_neg hc1, if_neg (by simp [hcomp5]), if_neg (by simp [hns5])]
      rw [finalizeRound_eq t round hcf hlt, updateCurrentRound_eq]
      dsimp only
      by_cases hu : updateCond (pipeMatches t.«matches» round t.totalRounds)
          t.currentRound t.totalRounds round = true
      · have hcr : t.currentRound = round := by
          unfold updateCond at hu
          rcases Bool.and_eq_true_iff.1 hu with ⟨h3, -⟩
          rcases Bool.and_eq_true_iff.1 h3 with ⟨-, h4⟩
          exact eq_of_beq h4
        rw [if_pos hu]
        dsimp only
        by_cases hmem : round ∈ t.finalizedRounds
        · rw [if_pos hmem]
          exact finalize_again _ round (hcfR _ rfl rfl) hlt hpipe
            (updateCond_cr_ne _ _ _ _ (by show t.currentRound + 1 ≠ round; omega)) hmem
        · rw [if_neg hmem]
          exact finalize_again _ round (hcfR _ rfl rfl) hlt hpipe
            (updateCond_cr_ne _ _ _ _ (by show t.currentRound + 1 ≠ round; omega))
            (List.mem_append.2 (Or.inr (List.mem_singleton.2 rfl)))
      · have hu2 : updateCond (pipeMatches t.«matches» round t.totalRounds)
            t.currentRound t.totalRounds round = false := by
          cases h : updateCond (pipeMatches t.«matches» round t.totalRounds)
              t.currentRound t.totalRounds round with
          | true => exact absurd h hu
          | false => rfl
        rw [if_neg hu]
        dsimp only
        by_cases hmem : round ∈ t.finalizedRounds
        · rw [if_pos hmem]
          exact finalize_again _ round (hcfR _ rfl rfl) hlt hpipe hu2 hmem
        · rw [if_neg hmem]
          exact finalize_again _ round (hcfR _ rfl rfl) hlt hpipe hu2
            (List.mem_append.2 (Or.inr (List.mem_singleton.2 rfl)))
    · -- a final (or out-of-range) round only records the finalized flag
      have h1 : finalizeRoundIfComplete t round =
          (if round ∈ t.finalizedRounds then t
           else { t with finalizedRounds := t.finalizedRounds ++ [round] },
            true) := by
        rw [finalizeRoundIfComplete, if_neg (by simp [hcf])]
        dsimp only
        rw [if_neg hlt]
      rw [h1]
      by_cases hmem : round ∈ t.finalizedRounds
      · rw [if_pos hmem]
        rw [finalizeRoundIfComplete, if_neg (by simp [hcf])]
        dsimp only
        rw [if_neg hlt, if_pos hmem]
      · rw [if_neg hmem]
        have hcf1 : canFinalizeRound
            { t with finalizedRounds := t.finalizedRounds ++ [round] } round =
            true := hcf
        rw [finalizeRoundIfComplete, if_neg (by simp [hcf1])]
        dsimp only
        rw [if_neg (show ¬ round <
          ({ t with finalizedRounds := t.finalizedRounds ++ [round]} :
            Tournament).totalRounds from hlt)]
        rw [if_pos (show round ∈
          ({ t with finalizedRounds := t.finalizedRounds ++ [round]} :
            Tournament).finalizedRounds from
          List.mem_append.2 (Or.inr (List.mem_singleton.2 rfl)))]
  · -- not finalizable: both calls are no-ops
    have h1 : finalizeRoundIfComplete t round = (t, false) := by
      rw [finalizeRoundIfComplete, if_pos (by
        cases hc2 : canFinalizeRound t round with
        | true => exact absurd hc2 hcf
        | false => simp)]
    rw [h1]
    exact h1

def byeP1 : Participant := { id := "ba", name := "Ann", gamePoints := 0 }

def byeP2 : Participant := { id := "bb", name := "Ben", gamePoints := 0 }

def byeP3 : Participant := { id := "bc", name := "Cid", gamePoints := 0 }

def byeP4 : Participant := { id := "bd", name := "Dee", gamePoints := 0 }

/-- Three participants: round 1 holds one decided match and one
unresolved bye (a single-occupant match without a winner), round 2 is
still empty. -/
def byeT : Tournament :=
  { id := "tb"
    name := "TB"
    game := "G"
    scoringMode := .higher_score
    scoreLabel := "pts"
    targetScore := none
    seedingMode := .random
    isStarted := true
    participants := [byeP1, byeP2, byeP3]
    «matches» := [mkM "b11" 1 1 (some byeP1) (some byeP2) 10 5 (some byeP1),
                  mkM "b12" 1 2 (some byeP3) none 0 0 none,
                  mkM "b21" 2 1 none none 0 0 none]
    currentRound := 1
    totalRounds := 2
    finalizedRounds := []
    createdAt := 0
    updatedAt := 0 }

/-- Four participants: round 1 fully decided with no byes, round 2
still empty — the situation the amended idempotence statement covers. -/
def noByeT : Tournament :=
  { id := "tn"
    name := "TN"
    game := "G"
    scoringMode := .higher_score
    scoreLabel := "pts"
    targetScore := none
    seedingMode := .random
    isStarted := true
    participants := [byeP1, byeP2, byeP3, byeP4]
    «matches» := [mkM "n11" 1 1 (some byeP1) (some byeP2) 10 5 (some byeP1),
                  mkM "n12" 1 2 (some byeP3) (some byeP4) 3 7 (some byeP4),
                  mkM "n21" 2 1 none none 0 0 none]
    currentRound := 1
    totalRounds := 2
    finalizedRounds := []
    createdAt := 0
    updatedAt := 0 }

/-- C2 counterexample: with an unresolved bye in round 1 (3-participant
tournament `byeT`), calling `finalizeRoundIfComplete` a second time does
change the tournament — the first call advances the bye winner into
round 2, while the second call clears round 2 and rebuilds it without
re-advancing the bye winner, backfilling a wild card instead — so round
finalization is not idempotent in general. -/
theorem finalizeRound_idempotent_counterexample :
    finalizeRoundIfComplete (finalizeRoundIfComplete byeT 1).1 1 ≠
      finalizeRoundIfComplete byeT 1 := by decide

theorem finalizeRound_idempotent_witness :
    finalizeRoundIfComplete (finalizeRoundIfComplete noByeT 1).1 1 =
      finalizeRoundIfComplete noByeT 1 :=
  finalizeRound_idempotent noByeT 1 (by decide)
